import Mathlib

/-!
Verification of the loki-network Exit Endpoint subsystem
(`src/llarp/handlers/exit.cpp`) against its natural-language specification.

The C++ state of `llarp::handlers::ExitEndpoint` is embedded shallowly:
`std::unordered_map` / `std::map` become association lists over `Nat` keys,
public keys, IPv4 addresses, path ids and timestamps all become `Nat`, and
each member function becomes a pure Lean function on an explicit state
record.  Session objects (`llarp::exit::Endpoint`, `llarp::exit::SNodeSession`)
are declared outside the provided sources; their observable interface
(`createdAt`, `IsExpired`, `LooksDead`, `Tick` resetting per-tick counters)
is modelled from the spec where noted.
-/

namespace llarp

/-- Association-list lookup, modelling `std::map::find` / `unordered_map::find`
(first entry whose key matches; in all reachable states keys are unique). -/
def mfind {V : Type} (k : Nat) : List (Nat × V) → Option V
  | [] => none
  | e :: t => if e.1 = k then some e.2 else mfind k t

/-- Association-list erase, modelling `map::erase(key)` (keys are unique in
all reachable states, so erasing every entry with the key is the same). -/
def merase {V : Type} (k : Nat) : List (Nat × V) → List (Nat × V)
  | [] => []
  | e :: t => if e.1 = k then merase k t else e :: merase k t

/-- Association-list emplace, modelling `map::emplace`: fails (returns `none`)
when the key is already present, otherwise adds the pair. -/
def memplace {V : Type} (k : Nat) (v : V) (l : List (Nat × V)) :
    Option (List (Nat × V)) :=
  if (mfind k l).isSome then none else some (l ++ [(k, v)])

/-- Association-list insert-or-assign, modelling `map::operator[]` followed by
assignment. -/
def massign {V : Type} (k : Nat) (v : V) : List (Nat × V) → List (Nat × V)
  | [] => [(k, v)]
  | e :: t => if e.1 = k then (k, v) :: t else e :: massign k v t

/-- Insert-or-assign keeping the list sorted by key.  Modelled from the spec:
the per-IP activity container iterates in increasing IP order ("ties broken
by IP value (stable, deterministic)"); its declaration is not part of the
provided sources. -/
def aInsert (k v : Nat) : List (Nat × Nat) → List (Nat × Nat)
  | [] => [(k, v)]
  | e :: t =>
    if k < e.1 then (k, v) :: e :: t
    else if e.1 = k then (k, v) :: t
    else e :: aInsert k v t

/-- Number of entries holding a given key. -/
def countKey {V : Type} (k : Nat) (l : List (Nat × V)) : Nat :=
  (l.filter (fun e => e.1 = k)).length

theorem mfind_merase_self {V : Type} (k : Nat) (l : List (Nat × V)) :
    mfind k (merase k l) = none := by
  induction l with
  | nil => rfl
  | cons e t ih =>
    by_cases h : e.1 = k
    · simpa [merase, h] using ih
    · simpa [merase, mfind, h] using ih

theorem mfind_merase_ne {V : Type} {k k2 : Nat} (l : List (Nat × V))
    (h : k ≠ k2) : mfind k (merase k2 l) = mfind k l := by
  induction l with
  | nil => rfl
  | cons e t ih =>
    by_cases he : e.1 = k2
    · have hek : e.1 ≠ k := by simpa [he] using Ne.symm h
      simp [merase, mfind, he, hek, Ne.symm h, ih]
    · by_cases hk : e.1 = k
      · simp [merase, mfind, he, hk, h, ih]
      · simp [merase, mfind, he, hk, ih]

theorem mfind_append {V : Type} (k k2 : Nat) (v : V) (l : List (Nat × V)) :
    mfind k (l ++ [(k2, v)]) =
      match mfind k l with
      | some x => some x
      | none => if k2 = k then some v else none := by
  induction l with
  | nil => simp [mfind]
  | cons e t ih =>
    by_cases h : e.1 = k
    · simp [mfind, h]
    · simp [mfind, h, ih]

theorem mfind_massign_self {V : Type} (k : Nat) (v : V) (l : List (Nat × V)) :
    mfind k (massign k v l) = some v := by
  induction l with
  | nil => simp [massign, mfind]
  | cons e t ih =>
    by_cases h : e.1 = k
    · simp [massign, mfind, h]
    · simp [massign, mfind, h, ih]

theorem mfind_massign_ne {V : Type} {k k2 : Nat} (v : V) (l : List (Nat × V))
    (h : k ≠ k2) : mfind k (massign k2 v l) = mfind k l := by
  induction l with
  | nil => simp [massign, mfind, Ne.symm h]
  | cons e t ih =>
    by_cases he : e.1 = k2
    · have hek : e.1 ≠ k := by simpa [he] using Ne.symm h
      simp [massign, mfind, he, hek, Ne.symm h, ih]
    · by_cases hk : e.1 = k
      · simp [massign, mfind, he, hk, h, ih]
      · simp [massign, mfind, he, hk, ih]

theorem mfind_aInsert_self (k v : Nat) (l : List (Nat × Nat)) :
    mfind k (aInsert k v l) = some v := by
  induction l with
  | nil => simp [aInsert, mfind]
  | cons e t ih =>
    by_cases h1 : k < e.1
    · simp [aInsert, mfind, h1]
    · by_cases h2 : e.1 = k
      · simp [aInsert, mfind, h1, h2]
      · have : e.1 ≠ k := h2
        simp [aInsert, mfind, h1, h2, this, ih]

theorem mfind_aInsert_ne {k k2 : Nat} (v : Nat) (l : List (Nat × Nat))
    (h : k ≠ k2) : mfind k (aInsert k2 v l) = mfind k l := by
  induction l with
  | nil => simp [aInsert, mfind, Ne.symm h]
  | cons e t ih =>
    by_cases h1 : k2 < e.1
    · simp [aInsert, mfind, h1, Ne.symm h]
    · by_cases h2 : e.1 = k2
      · have hek : e.1 ≠ k := by simpa [h2] using Ne.symm h
        simp [aInsert, mfind, h1, h2, hek, Ne.symm h]
      · by_cases hk : e.1 = k
        · have hnk : ¬k2 < k := by simpa [hk] using h1
          simp [aInsert, mfind, h1, h2, hk, hnk, h]
        · simp [aInsert, mfind, h1, h2, hk, ih]

theorem mfind_isSome_of_mem {V : Type} {k : Nat} {v : V} :
    ∀ {l : List (Nat × V)}, (k, v) ∈ l → (mfind k l).isSome := by
  intro l
  induction l with
  | nil => intro h; cases h
  | cons e t ih =>
    intro h
    rcases List.mem_cons.mp h with h | h
    · cases h.symm
      simp [mfind]
    · by_cases he : e.1 = k
      · simp [mfind, he]
      · simpa [mfind, he] using ih h

/-- Modelled from the spec: idle interval after which a session "looks dead"
(the session classes live outside the provided sources; the spec gives them a
liveness estimate queried through `LooksDead(now)`). -/
def sessionIdleTimeout : Nat := 10000

/-- Modelled from the spec: lifetime after which a session self-reports
expiry through `IsExpired(now)`. -/
def sessionLifetime : Nat := 60000

/-- A client exit session (`llarp::exit::Endpoint`).  The class itself is
declared outside the provided sources; its attributes follow the spec's data
model: pubkey, path-id, direction, created-at, per-tick tx/rx counters and a
liveness estimate (`lastActive`). -/
structure ExitSession where
  pk : Nat
  pathId : Nat
  inbound : Bool
  ip : Nat
  createdAt : Nat
  lastActive : Nat
  txThisTick : Nat
  rxThisTick : Nat
  deriving Repr, DecidableEq

/-- Modelled from the spec: sessions self-report expiry via `IsExpired(now)`. -/
def ExitSession.isExpired (s : ExitSession) (now : Nat) : Bool :=
  s.createdAt + sessionLifetime ≤ now

/-- Modelled from the spec: the registry queries a session's liveness estimate
via `LooksDead(now)`. -/
def ExitSession.looksDead (s : ExitSession) (now : Nat) : Bool :=
  s.lastActive + sessionIdleTimeout < now

/-- Modelled from the spec: "sessions reset per-tick counters" in
`session.tick(now)`. -/
def ExitSession.tick (_now : Nat) (s : ExitSession) : ExitSession :=
  { s with txThisTick := 0, rxThisTick := 0 }

/-- An outbound session to another service node
(`llarp::exit::SNodeSession`); the class is declared outside the provided
sources, attributes follow the spec's data model. -/
structure SNodeSession where
  pk : Nat
  rewriteIP : Nat
  createdAt : Nat
  txThisTick : Nat
  rxThisTick : Nat
  deriving Repr, DecidableEq

/-- Modelled from the spec: snode sessions self-report expiry. -/
def SNodeSession.isExpired (s : SNodeSession) (now : Nat) : Bool :=
  s.createdAt + sessionLifetime ≤ now

/-- Modelled from the spec: per-tick counter reset for snode sessions. -/
def SNodeSession.tick (_now : Nat) (s : SNodeSession) : SNodeSession :=
  { s with txThisTick := 0, rxThisTick := 0 }

/-- An inbound IPv4 packet (already parsed by `net::IPv4Packet`): destination
address plus an abstract payload. -/
structure Pkt where
  dst : Nat
  payload : Nat
  deriving Repr, DecidableEq

/-- The state of `llarp::handlers::ExitEndpoint`: address-pool bounds from the
`ifaddr` option, the identity-map containers, the session registry and the
inbound Internet packet queue.  `chosenExits` maps a pubkey to an optional
session (`none` models a null `llarp::exit::Endpoint *`). -/
structure ExitState where
  ifAddr : Nat
  rangeAddr : Nat
  rangeMask : Nat
  nextAddr : Nat
  highestAddr : Nat
  permitExit : Bool
  keyToIP : List (Nat × Nat)
  ipToKey : List (Nat × Nat)
  ipActivity : List (Nat × Nat)
  snodeKeys : List Nat
  activeExits : List ExitSession
  snodeSessions : List (Nat × SNodeSession)
  paths : List (Nat × Nat)
  chosenExits : List (Nat × Option ExitSession)
  inetQueue : List Pkt
  deriving Repr, DecidableEq

/-- IPv4 netmask with the given number of leading one bits
(`netmask_ipv4_bits`). -/
def netmaskBits (bits : Nat) : Nat :=
  (2 ^ 32 - 2 ^ (32 - bits)) % 2 ^ 32

/-- State produced by `SetOption("ifaddr", host/mask)` (exit.cpp lines
436-458) on a freshly constructed endpoint: `ourRange` gets the interface
address and mask, `nextAddr` starts at the interface address and
`highestAddr` is the interface address with all host bits set. -/
def initState (host mask : Nat) (permit : Bool) : ExitState :=
  { ifAddr := host
    rangeAddr := host
    rangeMask := netmaskBits mask
    nextAddr := host
    highestAddr := host ||| (2 ^ (32 - mask) - 1)
    permitExit := permit
    keyToIP := []
    ipToKey := []
    ipActivity := []
    snodeKeys := []
    activeExits := []
    snodeSessions := []
    paths := []
    chosenExits := []
    inetQueue := [] }

/-- `IPRange::Contains(ip)`: masked equality (net/ip_range.hpp line 53). -/
def rangeContains (addr mask ip : Nat) : Bool :=
  addr &&& mask = ip &&& mask

/-- `ExitEndpoint::HasLocalMappedAddrFor` (exit.cpp lines 254-258). -/
def hasLocalMappedAddrFor (st : ExitState) (pk : Nat) : Bool :=
  (mfind pk st.keyToIP).isSome

/-- `ExitEndpoint::MarkIPActive` (exit.cpp lines 338-342):
`m_IPActivity[ip] = Router()->Now()`. -/
def markIPActive (st : ExitState) (now ip : Nat) : ExitState :=
  { st with ipActivity := aInsert ip now st.ipActivity }

/-- The largest `llarp_time_t` value
(`std::numeric_limits<llarp_time_t>::max()`, a 64-bit count). -/
def llarpTimeMax : Nat := 2 ^ 64 - 1

/-- The minimum-activity scan of `AllocateNewAddress` (exit.cpp lines
298-310): a fold over `m_IPActivity` keeping the entry with the strictly
smallest timestamp, starting from address 0 and time max. -/
def scanMinIP (l : List (Nat × Nat)) : Nat × Nat :=
  l.foldl (fun acc e => if e.2 < acc.2 then e else acc) (0, llarpTimeMax)

/-- `ExitEndpoint::KickIdentOffExit` (exit.cpp lines 325-336): looks up the
IP bound to `pk` (`m_KeyToIP[pk]`, whose default-insert is immediately
cancelled by the following `erase`), erases both map directions and every
`m_ActiveExits` entry for `pk`. -/
def kickIdentOffExit (st : ExitState) (pk : Nat) : ExitState :=
  let ip := (mfind pk st.keyToIP).getD 0
  { st with
    keyToIP := merase pk st.keyToIP
    ipToKey := merase ip st.ipToKey
    activeExits := st.activeExits.filter (fun s => s.pk ≠ pk) }

/-- `ExitEndpoint::AllocateNewAddress` (exit.cpp lines 292-317).  When the
pool is exhausted, `m_IPToKey[found]` is `operator[]`: it default-inserts
pubkey 0 when `found` is unmapped, and the bound (or defaulted) identity is
kicked before returning the reclaimed address. -/
def allocateNewAddress (st : ExitState) : Nat × ExitState :=
  if st.nextAddr < st.highestAddr then
    (st.nextAddr + 1, { st with nextAddr := st.nextAddr + 1 })
  else
    let found := (scanMinIP st.ipActivity).1
    match mfind found st.ipToKey with
    | some pk => (found, kickIdentOffExit st pk)
    | none =>
      (found,
        kickIdentOffExit { st with ipToKey := st.ipToKey ++ [(found, 0)] } 0)

/-- `ExitEndpoint::GetIPForIdent` (exit.cpp lines 260-290): returns the
existing mapping, or allocates an address and installs both directions.  A
failed `emplace` is logged and returns early, skipping `MarkIPActive` (the
`rehash(0)` call has no semantic effect). -/
def getIPForIdent (st : ExitState) (now pk : Nat) : Nat × ExitState :=
  if hasLocalMappedAddrFor st pk then
    let found := (mfind pk st.keyToIP).getD 0
    (found, markIPActive st now found)
  else
    let alloc := allocateNewAddress st
    let found := alloc.1
    let st1 := alloc.2
    match memplace pk found st1.keyToIP with
    | none => (found, st1)
    | some k2i =>
      let st2 := { st1 with keyToIP := k2i }
      match memplace found pk st2.ipToKey with
      | none => (found, st2)
      | some i2k =>
        let st3 := { st2 with ipToKey := i2k }
        (found, markIPActive st3 now found)

/-- `ExitEndpoint::ObtainServiceNodeIP` (exit.cpp lines 480-497): maps the
router id, and when it is newly inserted into `m_SNodeKeys` also creates the
single outbound `SNodeSession` bound to the mapped address. -/
def obtainServiceNodeIP (st : ExitState) (now other : Nat) : Nat × ExitState :=
  let r := getIPForIdent st now other
  let ip := r.1
  let st1 := r.2
  if other ∈ st1.snodeKeys then (ip, st1)
  else
    (ip,
      { st1 with
        snodeKeys := other :: st1.snodeKeys
        snodeSessions :=
          match mfind other st1.snodeSessions with
          | some _ => st1.snodeSessions
          | none =>
            st1.snodeSessions ++
              [(other,
                { pk := other, rewriteIP := ip, createdAt := now,
                  txThisTick := 0, rxThisTick := 0 })] })

/-- `ExitEndpoint::AllocateNewExit` (exit.cpp lines 499-520).
`prevIsRouter` stands for the collaborator call
`Router()->paths.TransitHopPreviousIsRouter(path, pk)`. -/
def allocateNewExit (st : ExitState) (now pk path : Nat)
    (wantInternet prevIsRouter : Bool) : Bool × ExitState :=
  if wantInternet ∧ ¬st.permitExit then (false, st)
  else
    let r := getIPForIdent st now pk
    let ip := r.1
    let st1 := r.2
    let st2 :=
      if prevIsRouter ∧ pk ∉ st1.snodeKeys then
        { st1 with snodeKeys := pk :: st1.snodeKeys }
      else st1
    let sess : ExitSession :=
      { pk := pk, pathId := path, inbound := !wantInternet, ip := ip,
        createdAt := now, lastActive := now, txThisTick := 0, rxThisTick := 0 }
    let st3 :=
      { st2 with
        activeExits := st2.activeExits ++ [sess]
        paths := massign path pk st2.paths }
    (hasLocalMappedAddrFor st3 pk, st3)

/-- One step of the chosen-exit selection loop of `ExitEndpoint::Tick`
(exit.cpp lines 577-598).  The C++ map stores `llarp::exit::Endpoint *`; a
chosen session is ticked later in the same pass through the aliasing pointer,
so the model stores the ticked session (ticking changes neither `createdAt`
nor the liveness estimate).  A stored null pointer (`some none`) cannot occur
here because the loop starts from a cleared map. -/
def chosenStep (now : Nat) (ch : List (Nat × Option ExitSession))
    (s : ExitSession) : List (Nat × Option ExitSession) :=
  match mfind s.pk ch with
  | some (some c) =>
    if c.createdAt < s.createdAt then
      if s.looksDead now then ch
      else massign s.pk (some (ExitSession.tick now s)) ch
    else ch
  | some none => ch
  | none =>
    if s.looksDead now then ch
    else massign s.pk (some (ExitSession.tick now s)) ch

/-- The combined chosen-exit selection and per-session tick loop of
`ExitEndpoint::Tick` (exit.cpp lines 574-598): returns the rebuilt
`m_ChosenExits` and the ticked `m_ActiveExits`. -/
def chosenLoop (now : Nat) (ch : List (Nat × Option ExitSession)) :
    List ExitSession → List (Nat × Option ExitSession) × List ExitSession
  | [] => (ch, [])
  | s :: rest =>
    let r := chosenLoop now (chosenStep now ch s) rest
    (r.1, ExitSession.tick now s :: r.2)

/-- `ExitEndpoint::Tick` (exit.cpp lines 551-600): drop expired snode
sessions, drop expired active exits, then rebuild `m_ChosenExits` from a
cleared map while ticking every surviving active exit. -/
def tickState (now : Nat) (st : ExitState) : ExitState :=
  let sn := st.snodeSessions.filter (fun e => !(e.2.isExpired now))
  let survivors := st.activeExits.filter (fun s => !(s.isExpired now))
  let r := chosenLoop now [] survivors
  { st with snodeSessions := sn, activeExits := r.2, chosenExits := r.1 }

/-- Disposition of one inbound Internet packet inside
`ExitEndpoint::Flush`. -/
inductive PktEvent where
  | droppedNoSession (dst : Nat)
  | toSnode (pk : Nat)
  | toExit (pk : Nat)
  | droppedNoEndpoint (pk : Nat)
  | droppedOverloaded (pk : Nat)
  deriving Repr, DecidableEq

/-- Reading `m_ChosenExits[pk]` as a session: an absent entry and a stored
null pointer both yield no endpoint. -/
def chosenGet (st : ExitState) (pk : Nat) : Option ExitSession :=
  (mfind pk st.chosenExits).bind id

/-- The snode fast path of `ExitEndpoint::Flush` (exit.cpp lines 148-161):
the key is marked as a service node, an outbound snode session exists and
`QueueUpstreamTraffic` accepts the packet.  `accUp` stands for the
collaborator call `QueueUpstreamTraffic(pkt, ExitPadSize)`. -/
def snodeAccepts (accUp : SNodeSession → Pkt → Bool) (st : ExitState)
    (pk : Nat) (pkt : Pkt) : Bool :=
  decide (pk ∈ st.snodeKeys) &&
    (match mfind pk st.snodeSessions with
     | some sn => accUp sn pkt
     | none => false)

/-- Disposition of one packet drained by `ExitEndpoint::Flush` (exit.cpp
lines 135-178).  `accUp` and `accIn` stand for the collaborator calls
`QueueUpstreamTraffic` and `QueueInboundTraffic`. -/
def routeEvent (accUp : SNodeSession → Pkt → Bool)
    (accIn : ExitSession → Pkt → Bool) (st : ExitState) (pkt : Pkt) :
    PktEvent :=
  match mfind pkt.dst st.ipToKey with
  | none => .droppedNoSession pkt.dst
  | some pk =>
    if snodeAccepts accUp st pk pkt then .toSnode pk
    else
      match chosenGet st pk with
      | none => .droppedNoEndpoint pk
      | some ep => if accIn ep pkt then .toExit pk else .droppedOverloaded pk

/-- State effect of processing one drained packet: the only mutation is the
default-insert performed by `m_ChosenExits[pk]` (exit.cpp line 162) when the
packet reaches that lookup and `pk` has no entry yet. -/
def routeStep (accUp : SNodeSession → Pkt → Bool) (st : ExitState)
    (pkt : Pkt) : ExitState :=
  match mfind pkt.dst st.ipToKey with
  | none => st
  | some pk =>
    if snodeAccepts accUp st pk pkt then st
    else
      match mfind pk st.chosenExits with
      | some _ => st
      | none => { st with chosenExits := st.chosenExits ++ [(pk, none)] }

/-- Drain loop of `m_InetToNetwork.Process` inside `ExitEndpoint::Flush`:
one disposition per packet, threading the state. -/
def flushGo (accUp : SNodeSession → Pkt → Bool)
    (accIn : ExitSession → Pkt → Bool) :
    List Pkt → ExitState → List PktEvent × ExitState
  | [], s => ([], s)
  | p :: ps, s =>
    let ev := routeEvent accUp accIn s p
    let r := flushGo accUp accIn ps (routeStep accUp s p)
    (ev :: r.1, r.2)

/-- `ExitEndpoint::Flush` (exit.cpp lines 132-203): drains the whole inbound
Internet queue, producing a disposition per packet.  The two trailing loops
flush each session to the link layer and only log on failure; they do not
change the modelled state. -/
def flushInet (accUp : SNodeSession → Pkt → Bool)
    (accIn : ExitSession → Pkt → Bool) (st : ExitState) :
    List PktEvent × ExitState :=
  flushGo accUp accIn st.inetQueue { st with inetQueue := [] }

/-- `llarp::dns::qTypePTR`. -/
def qTypePTR : Nat := 12

/-- `llarp::dns::qTypeA`. -/
def qTypeA : Nat := 1

/-- One DNS question: type and name (a byte string, modelled as chars). -/
structure DnsQuestion where
  qtype : Nat
  qname : List Char
  deriving Repr, DecidableEq

/-- A DNS message as far as the hook predicates inspect it. -/
structure DnsMessage where
  questions : List DnsQuestion
  deriving Repr, DecidableEq

/-- Whether `pat` occurs at the front of `s`. -/
def leadsWith : List Char → List Char → Bool
  | [], _ => true
  | _ :: _, [] => false
  | a :: pa, b :: sb => a = b && leadsWith pa sb

/-- First position at or after `i` where `pat` occurs in the list. -/
def findSubFrom (pat : List Char) : List Char → Nat → Option Nat
  | [], i => if leadsWith pat [] then some i else none
  | c :: t, i =>
    if leadsWith pat (c :: t) then some i else findSubFrom pat t (i + 1)

/-- `std::string::find(pat)`: index of the first occurrence, `none` for
`npos`. -/
def strFind (s pat : List Char) : Option Nat :=
  findSubFrom pat s 0

/-- Two to the sixty-fourth: the modulus of `size_t` arithmetic. -/
def U64 : Nat := 2 ^ 64

/-- The literal `".snode."` searched for by `ShouldHookDNSMessage`. -/
def snodeSuffix : List Char := ['.', 's', 'n', 'o', 'd', 'e', '.']

/-- `ExitEndpoint::ShouldHookDNSMessage` (exit.cpp lines 43-62).  `decodePTR`
stands for `llarp::dns::DecodePTR` (declared outside the provided sources).
The A-record test is the exact `size_t` comparison
`qname.find(".snode.") == qname.size() - 7`, where a missing occurrence is
`npos` and the subtraction wraps modulo 2^64. -/
def shouldHookDNSMessage (decodePTR : List Char → Option Nat) (st : ExitState)
    (msg : DnsMessage) : Bool :=
  match msg.questions with
  | [] => false
  | q :: _ =>
    if q.qtype = qTypePTR then
      match decodePTR q.qname with
      | none => false
      | some ip => rangeContains st.rangeAddr st.rangeMask ip
    else if q.qtype = qTypeA then
      decide
        ((match strFind q.qname snodeSuffix with
          | some i => i
          | none => U64 - 1) = (q.qname.length + U64 - 7) % U64)
    else false

/-- An answer record appended to the hooked DNS reply. -/
inductive DnsAnswer where
  | aName (pk : Nat)
  | inAddr (ip : Nat)
  | nx
  deriving Repr, DecidableEq

/-- `ExitEndpoint::HandleHookedDNSMessage` (exit.cpp lines 64-124).
`decodePTR` and `parsePK` stand for `llarp::dns::DecodePTR` and
`RouterID::FromString`; `us` is `Router()->pubkey()`.  Returns the C++
return value, the answers appended to the reply, and the updated state.  A
PTR name that fails to decode returns `false` without replying. -/
def handleHookedDNSMessage (decodePTR parsePK : List Char → Option Nat)
    (us : Nat) (st : ExitState) (now : Nat) (msg : DnsMessage) :
    Bool × List DnsAnswer × ExitState :=
  match msg.questions with
  | [] => (false, [], st)
  | q :: _ =>
    if q.qtype = qTypePTR then
      match decodePTR q.qname with
      | none => (false, [], st)
      | some ip =>
        if ip = st.ifAddr then (true, [.aName us], st)
        else
          match mfind ip st.ipToKey with
          | some pk =>
            if pk ∈ st.snodeKeys then (true, [.aName pk], st)
            else (true, [.nx], st)
          | none => (true, [.nx], st)
    else if q.qtype = qTypeA then
      match parsePK q.qname with
      | some r =>
        if r ∈ st.snodeKeys then
          match mfind r st.keyToIP with
          | some ip => (true, [.inAddr ip], st)
          | none => (true, [.nx], st)
        else
          let o := obtainServiceNodeIP st now r
          (true, [.inAddr o.1], o.2)
      | none => (true, [.nx], st)
    else (true, [], st)

/-- A public identity-map operation of the endpoint, with the router clock
value at the time of the call. -/
inductive Op where
  | getIp (now pk : Nat)
  | allocExit (now pk path : Nat) (wantInternet prevIsRouter : Bool)
  | obtainSnode (now pk : Nat)
  | kick (pk : Nat)
  deriving Repr, DecidableEq

/-- State effect of one public operation. -/
def applyOp (st : ExitState) : Op → ExitState
  | .getIp now pk => (getIPForIdent st now pk).2
  | .allocExit now pk path w p => (allocateNewExit st now pk path w p).2
  | .obtainSnode now pk => (obtainServiceNodeIP st now pk).2
  | .kick pk => kickIdentOffExit st pk

/-- Run a sequence of public operations. -/
def runOps (st : ExitState) : List Op → ExitState
  | [] => st
  | o :: t => runOps (applyOp st o) t

/-- Whether an operation is a `KickIdentOffExit` call. -/
def Op.isKick : Op → Bool
  | .kick _ => true
  | _ => false

theorem memplace_some {V : Type} {k : Nat} {v : V} {l l' : List (Nat × V)}
    (h : memplace k v l = some l') :
    l' = l ++ [(k, v)] ∧ mfind k l = none := by
  by_cases hf : (mfind k l).isSome
  · simp [memplace, hf] at h
  · refine ⟨?_, ?_⟩
    · simpa [memplace, hf] using h.symm
    · cases hm : mfind k l
      · rfl
      · simp [hm] at hf

theorem memplace_none {V : Type} {k : Nat} {v : V} {l : List (Nat × V)}
    (h : memplace k v l = none) : (mfind k l).isSome := by
  by_cases hf : (mfind k l).isSome
  · exact hf
  · simp [memplace, hf] at h

theorem mfind_merase_none {V : Type} {k k2 : Nat} {l : List (Nat × V)}
    (h : mfind k l = none) : mfind k (merase k2 l) = none := by
  by_cases hk : k = k2
  · subst hk; exact mfind_merase_self k l
  · rw [mfind_merase_ne l hk]; exact h

theorem getIPForIdent_mapped {st : ExitState} {now pk ip : Nat}
    (h : mfind pk st.keyToIP = some ip) :
    getIPForIdent st now pk = (ip, markIPActive st now ip) := by
  simp [getIPForIdent, hasLocalMappedAddrFor, h]

theorem getIPForIdent_maps (st : ExitState) (now pk : Nat) :
    mfind pk (getIPForIdent st now pk).2.keyToIP =
      some (getIPForIdent st now pk).1 := by
  by_cases h : hasLocalMappedAddrFor st pk
  · cases hm : mfind pk st.keyToIP with
    | none => simp [hasLocalMappedAddrFor, hm] at h
    | some ip =>
      rw [getIPForIdent_mapped hm]
      simpa [markIPActive] using hm
  · have hm : mfind pk st.keyToIP = none := by
      cases hm : mfind pk st.keyToIP with
      | none => rfl
      | some ip => simp [hasLocalMappedAddrFor, hm] at h
    simp only [getIPForIdent, h, if_false, Bool.false_eq_true]
    cases hemp : memplace pk (allocateNewAddress st).1
        (allocateNewAddress st).2.keyToIP with
    | none =>
      exfalso
      have hs := memplace_none hemp
      have hnone : mfind pk (allocateNewAddress st).2.keyToIP = none := by
        simp only [allocateNewAddress]
        by_cases hlt : st.nextAddr < st.highestAddr
        · simpa [hlt] using hm
        · simp only [hlt, if_false]
          cases hk : mfind (scanMinIP st.ipActivity).1 st.ipToKey with
          | some pk2 => simpa [hk, kickIdentOffExit] using mfind_merase_none hm
          | none => simpa [hk, kickIdentOffExit] using mfind_merase_none hm
      rw [hnone] at hs
      simp at hs
    | some k2i =>
      obtain ⟨heq, -⟩ := memplace_some hemp
      subst heq
      have hfind : mfind pk ((allocateNewAddress st).2.keyToIP ++
          [(pk, (allocateNewAddress st).1)]) = some (allocateNewAddress st).1 := by
        rw [mfind_append]
        have hnone : mfind pk (allocateNewAddress st).2.keyToIP = none := by
          simp only [allocateNewAddress]
          by_cases hlt : st.nextAddr < st.highestAddr
          · simpa [hlt] using hm
          · simp only [hlt, if_false]
            cases hk : mfind (scanMinIP st.ipActivity).1 st.ipToKey with
            | some pk2 => simpa [hk, kickIdentOffExit] using mfind_merase_none hm
            | none => simpa [hk, kickIdentOffExit] using mfind_merase_none hm
        simp [hnone]
      cases hemp2 : memplace (allocateNewAddress st).1 pk
          ((allocateNewAddress st).2.ipToKey) with
      | none => simpa [hemp, hemp2] using hfind
      | some i2k => simpa [hemp, hemp2, markIPActive] using hfind

theorem getIPForIdent_idem (st : ExitState) (now1 now2 pk : Nat) :
    (getIPForIdent (getIPForIdent st now1 pk).2 now2 pk).1 =
      (getIPForIdent st now1 pk).1 := by
  rw [getIPForIdent_mapped (getIPForIdent_maps st now1 pk)]

/-- C5: `KickIdentOffExit(pk)` removes `pk` from `keyToIp`, removes the
bound IP from `ipToKey` and drops every `activeExits` session for `pk`,
leaving `snodeKeys` and `snodeSessions` (and every other key's map entries)
untouched; and when the address pool is exhausted, `AllocateNewAddress`
reclaims the oldest-activity IP by performing exactly that kick on the
pubkey bound to it. -/
theorem kickIdent_frame (st : ExitState) (pk ip : Nat)
    (h : mfind pk st.keyToIP = some ip) :
    (mfind pk (kickIdentOffExit st pk).keyToIP = none ∧
      mfind ip (kickIdentOffExit st pk).ipToKey = none ∧
      (∀ p, p ≠ pk →
        mfind p (kickIdentOffExit st pk).keyToIP = mfind p st.keyToIP) ∧
      (∀ i, i ≠ ip →
        mfind i (kickIdentOffExit st pk).ipToKey = mfind i st.ipToKey) ∧
      (kickIdentOffExit st pk).activeExits =
        st.activeExits.filter (fun s => s.pk ≠ pk) ∧
      (kickIdentOffExit st pk).snodeKeys = st.snodeKeys ∧
      (kickIdentOffExit st pk).snodeSessions = st.snodeSessions ∧
      (kickIdentOffExit st pk).ipActivity = st.ipActivity) ∧
    (∀ pkb, ¬st.nextAddr < st.highestAddr →
      mfind (scanMinIP st.ipActivity).1 st.ipToKey = some pkb →
      allocateNewAddress st =
        ((scanMinIP st.ipActivity).1, kickIdentOffExit st pkb)) := by
  constructor
  · refine ⟨?_, ?_, ?_, ?_, ?_, ?_, ?_, ?_⟩
    · simpa [kickIdentOffExit, h] using mfind_merase_self pk st.keyToIP
    · simpa [kickIdentOffExit, h] using mfind_merase_self ip st.ipToKey
    · intro p hp
      simpa [kickIdentOffExit, h] using mfind_merase_ne st.keyToIP hp
    · intro i hi
      simpa [kickIdentOffExit, h] using mfind_merase_ne st.ipToKey hi
    · simp [kickIdentOffExit]
    · simp [kickIdentOffExit]
    · simp [kickIdentOffExit]
    · simp [kickIdentOffExit]
  · intro pkb hfull hb
    simp [allocateNewAddress, hfull, hb]

/-- Concrete run of `kickIdent_frame`: identity 1 holds address 6 in a full
pool; the kick clears both map directions, keeps the snode state, and the
exhausted allocator reclaims address 6 through exactly that kick. -/
def kickW : ExitState :=
  { initState 5 30 true with
    nextAddr := 7
    keyToIP := [(1, 6), (2, 7)]
    ipToKey := [(6, 1), (7, 2)]
    ipActivity := [(6, 10), (7, 20)]
    snodeKeys := [2]
    snodeSessions :=
      [(2, { pk := 2, rewriteIP := 7, createdAt := 0,
             txThisTick := 0, rxThisTick := 0 })]
    activeExits :=
      [{ pk := 1, pathId := 100, inbound := false, ip := 6, createdAt := 10,
         lastActive := 10, txThisTick := 0, rxThisTick := 0 }] }

theorem kickIdent_frame_witness :
    mfind 1 kickW.keyToIP = some 6 ∧
    mfind 1 (kickIdentOffExit kickW 1).keyToIP = none ∧
    mfind 6 (kickIdentOffExit kickW 1).ipToKey = none ∧
    (kickIdentOffExit kickW 1).snodeKeys = kickW.snodeKeys ∧
    (kickIdentOffExit kickW 1).snodeSessions = kickW.snodeSessions ∧
    allocateNewAddress kickW = (6, kickIdentOffExit kickW 1) := by
  have happ := kickIdent_frame kickW 1 6 (by decide)
  exact ⟨by decide, happ.1.1, happ.1.2.1, happ.1.2.2.2.2.2.1,
    happ.1.2.2.2.2.2.2.1, happ.2 1 (by decide) (by decide)⟩

/-- C6: `AllocateNewExit(pk, path, wantInternet)` refuses (returning `false`
with the state unchanged) exactly when Internet egress is requested while
`permitExit` is off; in every other case it maps an address for `pk`,
appends a new `ExitSession` with `inbound = not wantInternet`, binds the
path to `pk` and returns `HasLocalMappedAddrFor(pk)`, which is `true`. -/
theorem allocateNewExit_spec (st : ExitState) (now pk path : Nat)
    (wI pR : Bool) :
    (wI = true → st.permitExit = false →
      allocateNewExit st now pk path wI pR = (false, st)) ∧
    (wI = false ∨ st.permitExit = true →
      (allocateNewExit st now pk path wI pR).1 = true ∧
      (allocateNewExit st now pk path wI pR).1 =
        hasLocalMappedAddrFor (allocateNewExit st now pk path wI pR).2 pk ∧
      mfind path (allocateNewExit st now pk path wI pR).2.paths = some pk ∧
      (allocateNewExit st now pk path wI pR).2.activeExits =
        (getIPForIdent st now pk).2.activeExits ++
          [{ pk := pk, pathId := path, inbound := !wI,
             ip := (getIPForIdent st now pk).1, createdAt := now,
             lastActive := now, txThisTick := 0, rxThisTick := 0 }] ∧
      mfind pk (allocateNewExit st now pk path wI pR).2.keyToIP =
        some (getIPForIdent st now pk).1) := by
  constructor
  · intro h1 h2
    simp [allocateNewExit, h1, h2]
  · intro hperm
    have hcond : ¬(wI = true ∧ st.permitExit = false) := by
      rcases hperm with h | h <;> simp [h]
    have hmap := getIPForIdent_maps st now pk
    by_cases hpr : pR = true ∧ pk ∉ (getIPForIdent st now pk).2.snodeKeys
    · refine ⟨?_, ?_, ?_, ?_, ?_⟩ <;>
        simp [allocateNewExit, hcond, hpr, hasLocalMappedAddrFor,
          mfind_massign_self, hmap]
    · refine ⟨?_, ?_, ?_, ?_, ?_⟩ <;>
        simp [allocateNewExit, hcond, hpr, hasLocalMappedAddrFor,
          mfind_massign_self, hmap]

/-- Concrete run of `allocateNewExit_spec` on a `permitExit = false`
endpoint: the Internet-egress request fails and changes nothing, while the
inbound-only request still succeeds. -/
theorem allocateNewExit_spec_witness :
    allocateNewExit (initState 5 30 false) 10 1 100 true false =
      (false, initState 5 30 false) ∧
    (allocateNewExit (initState 5 30 false) 10 1 100 false false).1 = true := by
  refine ⟨(allocateNewExit_spec (initState 5 30 false) 10 1 100 true
    false).1 rfl rfl, ?_⟩
  exact ((allocateNewExit_spec (initState 5 30 false) 10 1 100 false
    false).2 (Or.inl rfl)).1

theorem scanFold_spec (l : List (Nat × Nat)) :
    ∀ a : Nat × Nat, List.Pairwise (fun x y => x.1 < y.1) l →
    (l.foldl (fun acc e => if e.2 < acc.2 then e else acc) a = a ∧
      ∀ e ∈ l, a.2 ≤ e.2) ∨
    (l.foldl (fun acc e => if e.2 < acc.2 then e else acc) a ∈ l ∧
      (l.foldl (fun acc e => if e.2 < acc.2 then e else acc) a).2 < a.2 ∧
      ∀ e ∈ l,
        (l.foldl (fun acc e => if e.2 < acc.2 then e else acc) a).2 < e.2 ∨
        ((l.foldl (fun acc e => if e.2 < acc.2 then e else acc) a).2 = e.2 ∧
          (l.foldl (fun acc e => if e.2 < acc.2 then e else acc) a).1 ≤ e.1)) := by
  induction l with
  | nil => intro a _; exact Or.inl ⟨rfl, by simp⟩
  | cons e t ih =>
    intro a hp
    have hhead : ∀ x ∈ t, e.1 < x.1 := (List.pairwise_cons.mp hp).1
    have htail : List.Pairwise (fun x y => x.1 < y.1) t :=
      (List.pairwise_cons.mp hp).2
    by_cases he : e.2 < a.2
    · have hfold : (e :: t).foldl (fun acc e => if e.2 < acc.2 then e else acc) a
          = t.foldl (fun acc e => if e.2 < acc.2 then e else acc) e := by
        simp [List.foldl_cons, he]
      rw [hfold]
      rcases ih e htail with ⟨hr, hall⟩ | ⟨hmem, hlt, hall⟩
      · refine Or.inr ⟨by rw [hr]; exact List.mem_cons_self e t, by rw [hr]; exact he, ?_⟩
        intro x hx
        rcases List.mem_cons.mp hx with hxe | hxt
        · subst hxe; exact Or.inr ⟨by rw [hr], by rw [hr]⟩
        · rcases Nat.lt_or_ge e.2 x.2 with h | h
          · exact Or.inl (by rw [hr]; exact h)
          · have hex : e.2 = x.2 := Nat.le_antisymm (hall x hxt) h
            exact Or.inr ⟨by rw [hr]; exact hex,
              by rw [hr]; exact Nat.le_of_lt (hhead x hxt)⟩
      · refine Or.inr ⟨List.mem_cons_of_mem e hmem, Nat.lt_trans hlt he, ?_⟩
        intro x hx
        rcases List.mem_cons.mp hx with hxe | hxt
        · subst hxe; exact Or.inl hlt
        · exact hall x hxt
    · have hfold : (e :: t).foldl (fun acc e => if e.2 < acc.2 then e else acc) a
          = t.foldl (fun acc e => if e.2 < acc.2 then e else acc) a := by
        simp [List.foldl_cons, he]
      rw [hfold]
      rcases ih a htail with ⟨hr, hall⟩ | ⟨hmem, hlt, hall⟩
      · refine Or.inl ⟨hr, ?_⟩
        intro x hx
        rcases List.mem_cons.mp hx with hxe | hxt
        · subst hxe; exact Nat.le_of_not_lt he
        · exact hall x hxt
      · refine Or.inr ⟨List.mem_cons_of_mem e hmem, hlt, ?_⟩
        intro x hx
        rcases List.mem_cons.mp hx with hxe | hxt
        · subst hxe; exact Or.inl (Nat.lt_of_lt_of_le hlt (Nat.le_of_not_lt he))
        · exact hall x hxt

theorem scanMinIP_spec (l : List (Nat × Nat))
    (hs : List.Pairwise (fun x y => x.1 < y.1) l)
    (hmax : ∀ e ∈ l, e.2 < llarpTimeMax) (hne : l ≠ []) :
    scanMinIP l ∈ l ∧
    ∀ e ∈ l, (scanMinIP l).2 < e.2 ∨
      ((scanMinIP l).2 = e.2 ∧ (scanMinIP l).1 ≤ e.1) := by
  rcases scanFold_spec l (0, llarpTimeMax) hs with ⟨hr, hall⟩ | ⟨hmem, _, hall⟩
  · exfalso
    cases l with
    | nil => exact hne rfl
    | cons e t =>
      have h1 := hall e (List.mem_cons_self e t)
      have h2 := hmax e (List.mem_cons_self e t)
      exact absurd (Nat.lt_of_le_of_lt h1 h2) (Nat.lt_irrefl _)
  · exact ⟨hmem, hall⟩

/-- C3: when the pool has room (`nextAddr < highestAddr`),
`AllocateNewAddress` returns the incremented `nextAddr`, which is a fresh
address above `ifAddr`, at most `highestAddr` and distinct from everything
allocated so far; when the pool is exhausted it returns the address with the
smallest activity timestamp (ties broken towards the smaller address, the
activity container iterating in address order), after kicking the identity
bound to it. -/
theorem allocateNewAddress_spec (st : ExitState) :
    (st.nextAddr < st.highestAddr →
      allocateNewAddress st =
        (st.nextAddr + 1, { st with nextAddr := st.nextAddr + 1 }) ∧
      (st.ifAddr ≤ st.nextAddr →
        st.ifAddr < st.nextAddr + 1 ∧ st.nextAddr + 1 ≤ st.highestAddr) ∧
      ∀ allocated : List Nat, (∀ ip ∈ allocated, ip ≤ st.nextAddr) →
        st.nextAddr + 1 ∉ allocated) ∧
    (¬st.nextAddr < st.highestAddr →
      List.Pairwise (fun x y => x.1 < y.1) st.ipActivity →
      (∀ e ∈ st.ipActivity, e.2 < llarpTimeMax) →
      st.ipActivity ≠ [] →
      (allocateNewAddress st).1 = (scanMinIP st.ipActivity).1 ∧
      scanMinIP st.ipActivity ∈ st.ipActivity ∧
      (∀ e ∈ st.ipActivity, (scanMinIP st.ipActivity).2 < e.2 ∨
        ((scanMinIP st.ipActivity).2 = e.2 ∧
          (scanMinIP st.ipActivity).1 ≤ e.1)) ∧
      ∀ pkb, mfind (scanMinIP st.ipActivity).1 st.ipToKey = some pkb →
        (allocateNewAddress st).2 = kickIdentOffExit st pkb) := by
  constructor
  · intro hroom
    refine ⟨by simp [allocateNewAddress, hroom], ?_, ?_⟩
    · intro hle
      exact ⟨Nat.lt_succ_of_le hle, hroom⟩
    · intro allocated hb hmem
      have := hb _ hmem
      omega
  · intro hfull hs hmax hne
    obtain ⟨hmem, hall⟩ := scanMinIP_spec st.ipActivity hs hmax hne
    refine ⟨?_, hmem, hall, ?_⟩
    · simp only [allocateNewAddress, hfull, if_false]
      cases hk : mfind (scanMinIP st.ipActivity).1 st.ipToKey <;> simp [hk]
    · intro pkb hb
      simp [allocateNewAddress, hfull, hb]

/-- Concrete run of `allocateNewAddress_spec`: with room the pool hands out
address 6 of range 5/30; exhausted, it reclaims the oldest address 6 by
kicking identity 1. -/
theorem allocateNewAddress_spec_witness :
    allocateNewAddress (initState 5 30 true) =
      (6, { initState 5 30 true with nextAddr := 6 }) ∧
    (allocateNewAddress kickW).1 = 6 ∧
    (allocateNewAddress kickW).2 = kickIdentOffExit kickW 1 := by
  refine ⟨((allocateNewAddress_spec (initState 5 30 true)).1 (by decide)).1,
    ?_, ?_⟩
  · have h := (allocateNewAddress_spec kickW).2 (by decide) (by decide)
      (by decide) (by decide)
    rw [h.1]; decide
  · exact ((allocateNewAddress_spec kickW).2 (by decide) (by decide)
      (by decide) (by decide)).2.2.2 1 (by decide)

theorem chosenLoop_snd (now : Nat) :
    ∀ (l : List ExitSession) (ch : List (Nat × Option ExitSession)),
    (chosenLoop now ch l).2 = l.map (ExitSession.tick now) := by
  intro l
  induction l with
  | nil => intro ch; rfl
  | cons s rest ih => intro ch; simp [chosenLoop, ih]

/-- Counterexample to C10: a live snode session with a nonzero per-tick
counter survives `Tick` with its counter intact — `ExitEndpoint::Tick` only
expires snode sessions, it never calls `Tick` on them. -/
def tickCX : ExitState :=
  { initState 5 30 true with
    snodeSessions :=
      [(1, { pk := 1, rewriteIP := 6, createdAt := 0,
             txThisTick := 5, rxThisTick := 5 })] }

theorem tick_snode_sessions_not_ticked :
    ¬((tickState 5 tickCX).snodeSessions =
      (tickCX.snodeSessions.filter (fun e => !(e.2.isExpired 5))).map
        (fun e => (e.1, SNodeSession.tick 5 e.2))) := by
  decide

/-- C10 amended: `Tick(now)` first removes every expired snode session and
every expired active exit, then calls `Tick` on each surviving active exit;
surviving snode sessions are kept verbatim and are not ticked. -/
theorem tick_expire_then_tick (now : Nat) (st : ExitState) :
    (tickState now st).snodeSessions =
      st.snodeSessions.filter (fun e => !(e.2.isExpired now)) ∧
    (tickState now st).activeExits =
      (st.activeExits.filter (fun s => !(s.isExpired now))).map
        (ExitSession.tick now) := by
  exact ⟨rfl, by simp [tickState, chosenLoop_snd]⟩

/-- Invariant of the chosen-exit selection loop: over the sessions seen so
far, every chosen entry is a live session of its key with maximal
`createdAt` among the key's live sessions, keys without an entry have only
dead sessions, and no entry is null. -/
def chosenInv (now : Nat) (seen : List ExitSession)
    (ch : List (Nat × Option ExitSession)) : Prop :=
  (∀ k c, mfind k ch = some (some c) →
    c.pk = k ∧ c.looksDead now = false ∧
    c ∈ seen.map (ExitSession.tick now) ∧
    ∀ s ∈ seen, s.pk = k → s.looksDead now = false →
      s.createdAt ≤ c.createdAt) ∧
  (∀ k, mfind k ch = none → ∀ s ∈ seen, s.pk = k → s.looksDead now = true) ∧
  (∀ k, mfind k ch ≠ some none)

theorem chosenStep_inv {now : Nat} {seen : List ExitSession}
    {ch : List (Nat × Option ExitSession)} (s : ExitSession)
    (h : chosenInv now seen ch) :
    chosenInv now (seen ++ [s]) (chosenStep now ch s) := by
  obtain ⟨h1, h2, h3⟩ := h
  have hdead : ∀ x : ExitSession,
      (ExitSession.tick now x).pk = x.pk ∧
      (ExitSession.tick now x).looksDead now = x.looksDead now ∧
      (ExitSession.tick now x).createdAt = x.createdAt := by
    intro x; exact ⟨rfl, rfl, rfl⟩
  cases hf : mfind s.pk ch with
  | none =>
    by_cases hd : s.looksDead now = true
    · refine ⟨?_, ?_, ?_⟩ <;> simp only [chosenStep, hf, hd, if_true]
      · intro k c hc
        obtain ⟨hpk, hal, hmem, hmax⟩ := h1 k c hc
        refine ⟨hpk, hal, by simpa using Or.inl hmem, ?_⟩
        intro x hx hxpk hxal
        rcases List.mem_append.mp hx with hx | hx
        · exact hmax x hx hxpk hxal
        · have hxs : x = s := by simpa using hx
          subst hxs
          rw [hxpk] at hf
          rw [hf] at hc
          cases hc
      · intro k hk x hx hxpk
        rcases List.mem_append.mp hx with hx | hx
        · exact h2 k hk x hx hxpk
        · have hxs : x = s := by simpa using hx
          subst hxs
          exact hd
      · exact h3
    · have hd2 : s.looksDead now = false := by
        cases hv : s.looksDead now
        · rfl
        · exact absurd hv hd
      refine ⟨?_, ?_, ?_⟩ <;>
        simp only [chosenStep, hf, hd2, Bool.false_eq_true, if_false]
      · intro k c hc
        by_cases hk : k = s.pk
        · subst hk
          rw [mfind_massign_self] at hc
          have hcs : c = ExitSession.tick now s := by
            injection hc with hc1
            injection hc1 with hc2
            exact hc2.symm
          subst hcs
          refine ⟨rfl, hd2, by simp, ?_⟩
          intro x hx hxpk hxal
          rcases List.mem_append.mp hx with hx | hx
          · have := h2 s.pk hf x hx hxpk
            rw [this] at hxal
            cases hxal
          · have hxs : x = s := by simpa using hx
            subst hxs
            exact Nat.le_refl _
        · rw [mfind_massign_ne _ _ hk] at hc
          obtain ⟨hpk, hal, hmem, hmax⟩ := h1 k c hc
          refine ⟨hpk, hal, by simpa using Or.inl hmem, ?_⟩
          intro x hx hxpk hxal
          rcases List.mem_append.mp hx with hx | hx
          · exact hmax x hx hxpk hxal
          · have hxs : x = s := by simpa using hx
            subst hxs
            exact absurd hxpk.symm hk
      · intro k hk
        by_cases hkk : k = s.pk
        · subst hkk
          rw [mfind_massign_self] at hk
          cases hk
        · rw [mfind_massign_ne _ _ hkk] at hk
          intro x hx hxpk
          rcases List.mem_append.mp hx with hx | hx
          · exact h2 k hk x hx hxpk
          · have hxs : x = s := by simpa using hx
            subst hxs
            exact absurd hxpk.symm hkk
      · intro k
        by_cases hkk : k = s.pk
        · subst hkk
          rw [mfind_massign_self]
          intro hc
          cases hc
        · rw [mfind_massign_ne _ _ hkk]
          exact h3 k
  | some o =>
    cases o with
    | none => exact absurd hf (h3 s.pk)
    | some c0 =>
      by_cases hlt : c0.createdAt < s.createdAt
      · by_cases hd : s.looksDead now = true
        · refine ⟨?_, ?_, ?_⟩ <;>
            simp only [chosenStep, hf, hlt, hd, if_true]
          · intro k c hc
            obtain ⟨hpk, hal, hmem, hmax⟩ := h1 k c hc
            refine ⟨hpk, hal, by simpa using Or.inl hmem, ?_⟩
            intro x hx hxpk hxal
            rcases List.mem_append.mp hx with hx | hx
            · exact hmax x hx hxpk hxal
            · have hxs : x = s := by simpa using hx
              subst hxs
              rw [hxal] at hd
              cases hd
          · intro k hk x hx hxpk
            rcases List.mem_append.mp hx with hx | hx
            · exact h2 k hk x hx hxpk
            · have hxs : x = s := by simpa using hx
              subst hxs
              rw [hxpk] at hf
              rw [hf] at hk
              cases hk
          · exact h3
        · have hd2 : s.looksDead now = false := by
            cases hv : s.looksDead now
            · rfl
            · exact absurd hv hd
          refine ⟨?_, ?_, ?_⟩ <;>
            simp only [chosenStep, hf, hlt, hd2, if_true,
              Bool.false_eq_true, if_false]
          · intro k c hc
            by_cases hk : k = s.pk
            · subst hk
              rw [mfind_massign_self] at hc
              have hcs : c = ExitSession.tick now s := by
                injection hc with hc1
                injection hc1 with hc2
                exact hc2.symm
              subst hcs
              refine ⟨rfl, hd2, by simp, ?_⟩
              intro x hx hxpk hxal
              rcases List.mem_append.mp hx with hx | hx
              · obtain ⟨-, -, -, hmax0⟩ := h1 s.pk c0 hf
                exact Nat.le_trans (hmax0 x hx hxpk hxal) (Nat.le_of_lt hlt)
              · have hxs : x = s := by simpa using hx
                subst hxs
                exact Nat.le_refl _
            · rw [mfind_massign_ne _ _ hk] at hc
              obtain ⟨hpk, hal, hmem, hmax⟩ := h1 k c hc
              refine ⟨hpk, hal, by simpa using Or.inl hmem, ?_⟩
              intro x hx hxpk hxal
              rcases List.mem_append.mp hx with hx | hx
              · exact hmax x hx hxpk hxal
              · have hxs : x = s := by simpa using hx
                subst hxs
                exact absurd hxpk.symm hk
          · intro k hk
            by_cases hkk : k = s.pk
            · subst hkk
              rw [mfind_massign_self] at hk
              cases hk
            · rw [mfind_massign_ne _ _ hkk] at hk
              intro x hx hxpk
              rcases List.mem_append.mp hx with hx | hx
              · exact h2 k hk x hx hxpk
              · have hxs : x = s := by simpa using hx
                subst hxs
                exact absurd hxpk.symm hkk
          · intro k
            by_cases hkk : k = s.pk
            · subst hkk
              rw [mfind_massign_self]
              intro hc
              cases hc
            · rw [mfind_massign_ne _ _ hkk]
              exact h3 k
      · refine ⟨?_, ?_, ?_⟩ <;> simp only [chosenStep, hf, hlt, if_false]
        · intro k c hc
          obtain ⟨hpk, hal, hmem, hmax⟩ := h1 k c hc
          refine ⟨hpk, hal, by simpa using Or.inl hmem, ?_⟩
          intro x hx hxpk hxal
          rcases List.mem_append.mp hx with hx | hx
          · exact hmax x hx hxpk hxal
          · have hxs : x = s := by simpa using hx
            subst hxs
            have hck : c = c0 := by
              rw [hxpk] at hf
              rw [hf] at hc
              injection hc with hc1
              injection hc1 with hc2
              exact hc2.symm
            subst hck
            exact Nat.le_of_not_lt hlt
        · intro k hk x hx hxpk
          rcases List.mem_append.mp hx with hx | hx
          · exact h2 k hk x hx hxpk
          · have hxs : x = s := by simpa using hx
            subst hxs
            rw [hxpk] at hf
            rw [hf] at hk
            cases hk
        · exact h3

theorem chosenLoop_inv (now : Nat) :
    ∀ (l seen : List ExitSession) (ch : List (Nat × Option ExitSession)),
    chosenInv now seen ch →
    chosenInv now (seen ++ l) (chosenLoop now ch l).1 := by
  intro l
  induction l with
  | nil => intro seen ch h; simpa using h
  | cons s rest ih =>
    intro seen ch h
    have hstep := chosenStep_inv s h
    have hrec := ih (seen ++ [s]) (chosenStep now ch s) hstep
    have harr : (chosenLoop now ch (s :: rest)).1 =
        (chosenLoop now (chosenStep now ch s) rest).1 := by
      simp [chosenLoop]
    rw [harr]
    simpa [List.append_assoc] using hrec

theorem chosenInv_init (now : Nat) : chosenInv now [] [] := by
  refine ⟨?_, ?_, ?_⟩ <;> intro k <;> simp [mfind]

/-- C2: after `Tick(now)`, a key with at least one surviving (non-expired)
non-dead session has a chosen exit that is a member of its active exits, is
not `LooksDead(now)` and has the greatest `createdAt` among the key's
non-dead sessions; a key whose surviving sessions all look dead has no
chosen exit. -/
theorem tick_chosen_latest_alive (now : Nat) (st : ExitState) (k : Nat) :
    ((∃ s, s ∈ st.activeExits ∧ s.isExpired now = false ∧ s.pk = k ∧
        s.looksDead now = false) →
      ∃ c, mfind k (tickState now st).chosenExits = some (some c) ∧
        c ∈ (tickState now st).activeExits ∧ c.pk = k ∧
        c.looksDead now = false ∧
        ∀ x ∈ (tickState now st).activeExits, x.pk = k →
          x.looksDead now = false → x.createdAt ≤ c.createdAt) ∧
    ((∀ s ∈ st.activeExits, s.isExpired now = false → s.pk = k →
        s.looksDead now = true) →
      mfind k (tickState now st).chosenExits = none) := by
  have hinv : chosenInv now
      (st.activeExits.filter (fun s => !(s.isExpired now)))
      (chosenLoop now []
        (st.activeExits.filter (fun s => !(s.isExpired now)))).1 := by
    simpa using chosenLoop_inv now
      (st.activeExits.filter (fun s => !(s.isExpired now))) [] []
      (chosenInv_init now)
  obtain ⟨h1, h2, h3⟩ := hinv
  have hch : (tickState now st).chosenExits =
      (chosenLoop now []
        (st.activeExits.filter (fun s => !(s.isExpired now)))).1 := rfl
  have hae : (tickState now st).activeExits =
      (st.activeExits.filter (fun s => !(s.isExpired now))).map
        (ExitSession.tick now) := by
    simp [tickState, chosenLoop_snd]
  constructor
  · rintro ⟨s, hsmem, hsexp, hspk, hsal⟩
    have hss : s ∈ st.activeExits.filter (fun s => !(s.isExpired now)) :=
      List.mem_filter.mpr ⟨hsmem, by simp [hsexp]⟩
    rw [hch]
    cases hc : mfind k (chosenLoop now []
        (st.activeExits.filter (fun s => !(s.isExpired now)))).1 with
    | none =>
      have := h2 k hc s hss hspk
      rw [hsal] at this
      cases this
    | some o =>
      cases o with
      | none => exact absurd hc (h3 k)
      | some c =>
        obtain ⟨hpk, hal, hmem, hmax⟩ := h1 k c hc
        refine ⟨c, rfl, ?_, hpk, hal, ?_⟩
        · rw [hae]; exact hmem
        · intro x hx hxpk hxal
          rw [hae] at hx
          obtain ⟨u, hu, hxu⟩ := List.mem_map.mp hx
          have hupk : u.pk = k := by
            rw [← hxpk, ← hxu]; rfl
          have hual : u.looksDead now = false := by
            rw [← hxal, ← hxu]; rfl
          have := hmax u hu hupk hual
          rw [← hxu]
          exact this
  · intro hall
    rw [hch]
    cases hc : mfind k (chosenLoop now []
        (st.activeExits.filter (fun s => !(s.isExpired now)))).1 with
    | none => rfl
    | some o =>
      cases o with
      | none => exact absurd hc (h3 k)
      | some c =>
        obtain ⟨hpk, hal, hmem, -⟩ := h1 k c hc
        obtain ⟨u, hu, hcu⟩ := List.mem_map.mp hmem
        have humem := List.mem_filter.mp hu
        have huexp : u.isExpired now = false := by
          have := humem.2
          cases hv : u.isExpired now
          · rfl
          · rw [hv] at this; cases this
        have hupk : u.pk = k := by rw [← hpk, ← hcu]; rfl
        have hual := hall u humem.1 huexp hupk
        have : u.looksDead now = false := by rw [← hal, ← hcu]; rfl
        rw [this] at hual
        cases hual

/-- Concrete run of `tick_chosen_latest_alive`: key 1 has two live sessions
created at 10 and 20; after `Tick(30)` the chosen exit is the newer one. -/
def chooseW : ExitState :=
  { initState 5 30 true with
    activeExits :=
      [{ pk := 1, pathId := 100, inbound := false, ip := 6, createdAt := 10,
         lastActive := 25, txThisTick := 3, rxThisTick := 3 },
       { pk := 1, pathId := 101, inbound := false, ip := 6, createdAt := 20,
         lastActive := 28, txThisTick := 4, rxThisTick := 4 }] }

theorem tick_chosen_latest_alive_witness :
    ∃ c, mfind 1 (tickState 30 chooseW).chosenExits = some (some c) ∧
      c ∈ (tickState 30 chooseW).activeExits ∧ c.pk = 1 ∧
      c.looksDead 30 = false ∧
      ∀ x ∈ (tickState 30 chooseW).activeExits, x.pk = 1 →
        x.looksDead 30 = false → x.createdAt ≤ c.createdAt :=
  (tick_chosen_latest_alive 30 chooseW 1).1
    ⟨{ pk := 1, pathId := 101, inbound := false, ip := 6, createdAt := 20,
       lastActive := 28, txThisTick := 4, rxThisTick := 4 },
      by decide, by decide, by decide, by decide⟩

/-- Whether `s` ends with `suffix`. -/
def endsWithList (s suffix : List Char) : Bool :=
  leadsWith suffix.reverse s.reverse

/-- The authority predicate exactly as the spec words it (for comparison
with the code's `shouldHookDNSMessage`): the first question is a `PTR` whose
name decodes to an address in `ourRange`, or an `A` whose name ends in the
literal suffix `.snode`. -/
def specHookPredicate (decodePTR : List Char → Option Nat) (st : ExitState)
    (msg : DnsMessage) : Bool :=
  match msg.questions with
  | [] => false
  | q :: _ =>
    if q.qtype = qTypePTR then
      match decodePTR q.qname with
      | none => false
      | some ip => rangeContains st.rangeAddr st.rangeMask ip
    else if q.qtype = qTypeA then
      endsWithList q.qname ['.', 's', 'n', 'o', 'd', 'e']
    else false

/-- Counterexample to C7: the A-record check compares
`qname.find(".snode.")` with the wrapped `size_t` value `qname.size() - 7`,
so the six-character name "google" (no `.snode` suffix at all) is hooked
(`npos == 6 - 7` holds modulo 2^64), while the name "a.snode", which does
end in the literal suffix `.snode`, is not hooked (the code wants the
trailing-dot form ".snode."). -/
theorem shouldHook_counterexample :
    shouldHookDNSMessage (fun _ => none) (initState 5 30 true)
      ⟨[⟨qTypeA, ['g', 'o', 'o', 'g', 'l', 'e']⟩]⟩ = true ∧
    specHookPredicate (fun _ => none) (initState 5 30 true)
      ⟨[⟨qTypeA, ['g', 'o', 'o', 'g', 'l', 'e']⟩]⟩ = false ∧
    shouldHookDNSMessage (fun _ => none) (initState 5 30 true)
      ⟨[⟨qTypeA, ['a', '.', 's', 'n', 'o', 'd', 'e']⟩]⟩ = false ∧
    specHookPredicate (fun _ => none) (initState 5 30 true)
      ⟨[⟨qTypeA, ['a', '.', 's', 'n', 'o', 'd', 'e']⟩]⟩ = true := by
  refine ⟨?_, ?_, ?_, ?_⟩ <;> decide

theorem leadsWith_length :
    ∀ (pat s : List Char), leadsWith pat s = true → pat.length ≤ s.length := by
  intro pat
  induction pat with
  | nil => intro s _; simp
  | cons a pa ih =>
    intro s h
    cases s with
    | nil => cases h
    | cons b sb =>
      have h2 : leadsWith pa sb = true := by
        have := h
        simp only [leadsWith, Bool.and_eq_true] at this
        exact this.2
      simpa using ih sb h2

theorem findSubFrom_bound (pat : List Char) :
    ∀ (s : List Char) (j i : Nat), findSubFrom pat s j = some i →
      j ≤ i ∧ (i - j) + pat.length ≤ s.length := by
  intro s
  induction s with
  | nil =>
    intro j i h
    by_cases hw : leadsWith pat [] = true
    · have hp : pat.length = 0 := Nat.le_zero.mp (leadsWith_length pat [] hw)
      have hij : i = j := by
        simp only [findSubFrom, hw, if_true] at h
        injection h with h1
        exact h1.symm
      subst hij
      simp [hp]
    · simp only [findSubFrom] at h
      rw [if_neg hw] at h
      cases h
  | cons c t ih =>
    intro j i h
    by_cases hw : leadsWith pat (c :: t) = true
    · have hij : i = j := by
        simp only [findSubFrom, hw, if_true] at h
        injection h with h1
        exact h1.symm
      subst hij
      have := leadsWith_length pat (c :: t) hw
      simp only [List.length_cons] at this ⊢
      omega
    · have h2 : findSubFrom pat t (j + 1) = some i := by
        simp only [findSubFrom] at h
        rw [if_neg hw] at h
        exact h
      obtain ⟨hle, hb⟩ := ih (j + 1) i h2
      simp only [List.length_cons]
      omega

theorem strFind_bound {s pat : List Char} {i : Nat}
    (h : strFind s pat = some i) : i + pat.length ≤ s.length := by
  have := (findSubFrom_bound pat s 0 i h).2
  simpa using this

/-- C7 amended: `ShouldHookDNSMessage` claims a message iff it has a
question and either the first question is a `PTR` whose name decodes to an
address in `ourRange`, or it is an `A` record whose name either contains its
first `".snode."` occurrence exactly seven characters before the end (the
trailing-dot form of the `.snode` suffix, with no earlier occurrence) or —
through the unsigned wrap of `qname.size() - 7` against `npos` — is exactly
six characters long. -/
theorem shouldHook_amended (decodePTR : List Char → Option Nat)
    (st : ExitState) (msg : DnsMessage)
    (hlen : ∀ q ∈ msg.questions, q.qname.length ≤ 2 ^ 32) :
    shouldHookDNSMessage decodePTR st msg = true ↔
      ∃ q rest, msg.questions = q :: rest ∧
        ((q.qtype = qTypePTR ∧ ∃ ip, decodePTR q.qname = some ip ∧
            rangeContains st.rangeAddr st.rangeMask ip = true) ∨
         (q.qtype = qTypeA ∧ ¬q.qtype = qTypePTR ∧
           (strFind q.qname snodeSuffix = some (q.qname.length - 7) ∨
             q.qname.length = 6))) := by
  have hu : U64 = 18446744073709551616 := by norm_num [U64]
  cases hq : msg.questions with
  | nil =>
    simp [shouldHookDNSMessage, hq]
  | cons q rest =>
    have hql : q.qname.length ≤ 2 ^ 32 :=
      hlen q (by rw [hq]; exact List.mem_cons_self q rest)
    have hql2 : q.qname.length ≤ 4294967296 := by
      simpa using hql
    by_cases hptr : q.qtype = qTypePTR
    · simp only [shouldHookDNSMessage, hq, hptr, if_true]
      cases hd : decodePTR q.qname with
      | none =>
        simp only [Bool.false_eq_true, false_iff]
        rintro ⟨q2, rest2, hqq, hcase⟩
        have hq2 : q2 = q := by
          injection hqq with h1
          exact h1.symm
        subst hq2
        rcases hcase with ⟨-, ip, hip, -⟩ | ⟨-, hne, -⟩
        · rw [hd] at hip; cases hip
        · exact hne hptr
      | some ip =>
        constructor
        · intro hcont
          exact ⟨q, rest, rfl, Or.inl ⟨hptr, ip, hd, hcont⟩⟩
        · rintro ⟨q2, rest2, hqq, hcase⟩
          have hq2 : q2 = q := by
            injection hqq with h1
            exact h1.symm
          subst hq2
          rcases hcase with ⟨-, ip2, hip2, hc2⟩ | ⟨-, hne, -⟩
          · rw [hd] at hip2
            injection hip2 with h1
            rw [← h1] at hc2
            exact hc2
          · exact absurd hptr hne
    · by_cases ha : q.qtype = qTypeA
      · have hlhs : shouldHookDNSMessage decodePTR st msg =
            decide ((match strFind q.qname snodeSuffix with
              | some i => i
              | none => U64 - 1) = (q.qname.length + U64 - 7) % U64) := by
          simp only [shouldHookDNSMessage, hq]
          rw [if_neg hptr, if_pos ha]
        rw [hlhs, decide_eq_true_iff]
        have hmain :
            ((match strFind q.qname snodeSuffix with
              | some i => i
              | none => U64 - 1) = (q.qname.length + U64 - 7) % U64) ↔
            (strFind q.qname snodeSuffix = some (q.qname.length - 7) ∨
              q.qname.length = 6) := by
          cases hf : strFind q.qname snodeSuffix with
          | none =>
            have hred : (match (none : Option Nat) with
                | some i => i
                | none => U64 - 1) = U64 - 1 := rfl
            rw [hred, hu]
            constructor
            · intro hnpos
              right
              omega
            · rintro (hc | hc)
              · exact Option.noConfusion hc
              · omega
          | some i =>
            have hbound := strFind_bound hf
            have hslen : snodeSuffix.length = 7 := by decide
            rw [hslen] at hbound
            have hred : (match (some i : Option Nat) with
                | some i => i
                | none => U64 - 1) = i := rfl
            rw [hred, hu]
            simp only [Option.some.injEq]
            omega
        constructor
        · intro hcode
          exact ⟨q, rest, rfl, Or.inr ⟨ha, hptr, hmain.mp hcode⟩⟩
        · rintro ⟨q2, rest2, hqq, hcase⟩
          have hq2 : q2 = q := by
            injection hqq with h1
            exact h1.symm
          subst hq2
          rcases hcase with ⟨hp2, -, -⟩ | ⟨-, -, hdisj⟩
          · exact absurd hp2 hptr
          · exact hmain.mpr hdisj
      · simp only [shouldHookDNSMessage, hq, hptr, if_false, ha,
          Bool.false_eq_true, false_iff]
        rintro ⟨q2, rest2, hqq, hcase⟩
        have hq2 : q2 = q := by
          injection hqq with h1
          exact h1.symm
        subst hq2
        rcases hcase with ⟨hp2, -⟩ | ⟨ha2, -⟩
        · exact absurd hp2 hptr
        · exact absurd ha2 ha

/-- Concrete run of `shouldHook_amended`: the name "mykey.snode." is hooked
as an A record. -/
theorem shouldHook_amended_witness :
    shouldHookDNSMessage (fun _ => none) (initState 5 30 true)
      ⟨[⟨qTypeA,
        ['m', 'y', 'k', 'e', 'y', '.', 's', 'n', 'o', 'd', 'e', '.']⟩]⟩ =
      true :=
  (shouldHook_amended (fun _ => none) (initState 5 30 true)
    ⟨[⟨qTypeA,
      ['m', 'y', 'k', 'e', 'y', '.', 's', 'n', 'o', 'd', 'e', '.']⟩]⟩
    (by decide)).mpr
    ⟨⟨qTypeA,
      ['m', 'y', 'k', 'e', 'y', '.', 's', 'n', 'o', 'd', 'e', '.']⟩, [],
      rfl, Or.inr ⟨rfl, by decide, Or.inl (by decide)⟩⟩

theorem allocateNewAddress_frame (st : ExitState) :
    (allocateNewAddress st).2.snodeKeys = st.snodeKeys ∧
    (allocateNewAddress st).2.snodeSessions = st.snodeSessions := by
  simp only [allocateNewAddress]
  by_cases hlt : st.nextAddr < st.highestAddr
  · simp [hlt]
  · simp only [hlt, if_false]
    cases hk : mfind (scanMinIP st.ipActivity).1 st.ipToKey <;>
      simp [hk, kickIdentOffExit]

theorem getIPForIdent_snodeFrame (st : ExitState) (now pk : Nat) :
    (getIPForIdent st now pk).2.snodeKeys = st.snodeKeys ∧
    (getIPForIdent st now pk).2.snodeSessions = st.snodeSessions := by
  by_cases h : hasLocalMappedAddrFor st pk
  · cases hm : mfind pk st.keyToIP with
    | none => simp [hasLocalMappedAddrFor, hm] at h
    | some ip =>
      rw [getIPForIdent_mapped hm]
      exact ⟨rfl, rfl⟩
  · obtain ⟨hk, hs⟩ := allocateNewAddress_frame st
    simp only [getIPForIdent, h, if_false, Bool.false_eq_true]
    cases hemp : memplace pk (allocateNewAddress st).1
        (allocateNewAddress st).2.keyToIP with
    | none => exact ⟨hk, hs⟩
    | some k2i =>
      cases hemp2 : memplace (allocateNewAddress st).1 pk
          (allocateNewAddress st).2.ipToKey with
      | none => exact ⟨hk, hs⟩
      | some i2k => exact ⟨hk, hs⟩

theorem obtainServiceNodeIP_ip (st : ExitState) (now r : Nat) :
    (obtainServiceNodeIP st now r).1 = (getIPForIdent st now r).1 ∧
    (obtainServiceNodeIP st now r).2.keyToIP =
      (getIPForIdent st now r).2.keyToIP := by
  simp only [obtainServiceNodeIP]
  by_cases hmem : r ∈ (getIPForIdent st now r).2.snodeKeys
  · simp [hmem]
  · cases hs : mfind r (getIPForIdent st now r).2.snodeSessions <;>
      simp [hmem, hs]

theorem countKey_append {V : Type} (k : Nat) (l1 l2 : List (Nat × V)) :
    countKey k (l1 ++ l2) = countKey k l1 + countKey k l2 := by
  simp [countKey, List.filter_append]

theorem countKey_zero_of_mfind_none {V : Type} {k : Nat}
    {l : List (Nat × V)} (h : mfind k l = none) : countKey k l = 0 := by
  induction l with
  | nil => rfl
  | cons e t ih =>
    by_cases he : e.1 = k
    · simp [mfind, he] at h
    · simp only [mfind, he, if_false] at h
      simpa [countKey, List.filter_cons, he] using ih h

/-- C8: a hooked `A` query whose name parses as a pubkey not yet in
`snodeKeys` allocates an address through `ObtainServiceNodeIP`, creating
exactly one outbound snode session for that key, and replies with the
address; repeating the identical query replies with the same address and
changes nothing (and `GetIPForIdent` is idempotent per key); a name that
fails to parse yields NXDOMAIN with the state untouched. -/
theorem dns_a_query_allocates_once (decodePTR parsePK : List Char → Option Nat)
    (us : Nat) (st : ExitState) (now now2 : Nat) (msg : DnsMessage)
    (q : DnsQuestion) (rest : List DnsQuestion)
    (hq : msg.questions = q :: rest) (ha : q.qtype = qTypeA) :
    (parsePK q.qname = none →
      handleHookedDNSMessage decodePTR parsePK us st now msg =
        (true, [.nx], st)) ∧
    (∀ r, parsePK q.qname = some r → r ∉ st.snodeKeys →
      mfind r st.snodeSessions = none →
      handleHookedDNSMessage decodePTR parsePK us st now msg =
        (true, [.inAddr (obtainServiceNodeIP st now r).1],
          (obtainServiceNodeIP st now r).2) ∧
      mfind r (obtainServiceNodeIP st now r).2.keyToIP =
        some (obtainServiceNodeIP st now r).1 ∧
      r ∈ (obtainServiceNodeIP st now r).2.snodeKeys ∧
      countKey r (obtainServiceNodeIP st now r).2.snodeSessions = 1 ∧
      handleHookedDNSMessage decodePTR parsePK us
          (obtainServiceNodeIP st now r).2 now2 msg =
        (true, [.inAddr (obtainServiceNodeIP st now r).1],
          (obtainServiceNodeIP st now r).2)) ∧
    (∀ pk, (getIPForIdent (getIPForIdent st now pk).2 now2 pk).1 =
      (getIPForIdent st now pk).1) := by
  have hptr : ¬q.qtype = qTypePTR := by
    rw [ha]; decide
  have hne : qTypeA ≠ qTypePTR := by decide
  refine ⟨?_, ?_, ?_⟩
  · intro hparse
    simp [handleHookedDNSMessage, hq, hptr, ha, hparse, hne]
  · intro r hparse hnotin hnos
    obtain ⟨hk, hs⟩ := getIPForIdent_snodeFrame st now r
    have hnotin1 : r ∉ (getIPForIdent st now r).2.snodeKeys := by
      rw [hk]; exact hnotin
    have hnos1 : mfind r (getIPForIdent st now r).2.snodeSessions = none := by
      rw [hs]; exact hnos
    have hobt : obtainServiceNodeIP st now r =
        ((getIPForIdent st now r).1,
          { (getIPForIdent st now r).2 with
            snodeKeys := r :: (getIPForIdent st now r).2.snodeKeys
            snodeSessions :=
              (getIPForIdent st now r).2.snodeSessions ++
                [(r, { pk := r, rewriteIP := (getIPForIdent st now r).1,
                       createdAt := now, txThisTick := 0,
                       rxThisTick := 0 })] }) := by
      simp [obtainServiceNodeIP, hnotin1, hnos1]
    refine ⟨?_, ?_, ?_, ?_, ?_⟩
    · simp [handleHookedDNSMessage, hq, hptr, ha, hparse, hnotin, hne, hobt]
    · obtain ⟨h1, h2⟩ := obtainServiceNodeIP_ip st now r
      rw [h1, h2]
      exact getIPForIdent_maps st now r
    · rw [hobt]
      exact List.mem_cons_self r _
    · rw [hobt]
      simp only []
      rw [countKey_append, countKey_zero_of_mfind_none hnos1]
      simp [countKey]
    · have hin2 : r ∈ (obtainServiceNodeIP st now r).2.snodeKeys := by
        rw [hobt]; exact List.mem_cons_self r _
      have hfind2 : mfind r (obtainServiceNodeIP st now r).2.keyToIP =
          some (obtainServiceNodeIP st now r).1 := by
        obtain ⟨h1, h2⟩ := obtainServiceNodeIP_ip st now r
        rw [h1, h2]
        exact getIPForIdent_maps st now r
      simp [handleHookedDNSMessage, hq, hptr, ha, hparse, hin2, hfind2, hne]
  · intro pk
    exact getIPForIdent_idem st now now2 pk

/-- Concrete run of `dns_a_query_allocates_once`: a fresh snode name parsing
to key 3 is allocated address 6 and one outbound session; the repeat query
returns the same reply without further allocation. -/
theorem dns_a_query_allocates_once_witness :
    handleHookedDNSMessage (fun _ => none)
        (fun s => if s = ['k'] then some 3 else none) 9
        (initState 5 30 true) 10 ⟨[⟨qTypeA, ['k']⟩]⟩ =
      (true, [.inAddr (obtainServiceNodeIP (initState 5 30 true) 10 3).1],
        (obtainServiceNodeIP (initState 5 30 true) 10 3).2) ∧
    countKey 3
      (obtainServiceNodeIP (initState 5 30 true) 10 3).2.snodeSessions = 1 := by
  have h := (dns_a_query_allocates_once (fun _ => none)
    (fun s => if s = ['k'] then some 3 else none) 9 (initState 5 30 true)
    10 20 ⟨[⟨qTypeA, ['k']⟩]⟩ ⟨qTypeA, ['k']⟩ [] rfl rfl).2.1 3
    (by decide) (by decide) (by decide)
  exact ⟨h.1, h.2.2.2.1⟩

theorem routeStep_fields (accUp : SNodeSession → Pkt → Bool) (st : ExitState)
    (p : Pkt) :
    (routeStep accUp st p).ipToKey = st.ipToKey ∧
    (routeStep accUp st p).snodeKeys = st.snodeKeys ∧
    (routeStep accUp st p).snodeSessions = st.snodeSessions ∧
    (routeStep accUp st p).inetQueue = st.inetQueue := by
  simp only [routeStep]
  cases mfind p.dst st.ipToKey with
  | none => exact ⟨rfl, rfl, rfl, rfl⟩
  | some pk =>
    by_cases hacc : snodeAccepts accUp st pk p = true
    · simp [hacc]
    · simp only [hacc, Bool.false_eq_true, if_false]
      cases mfind pk st.chosenExits <;> exact ⟨rfl, rfl, rfl, rfl⟩

theorem chosenGet_routeStep (accUp : SNodeSession → Pkt → Bool)
    (st : ExitState) (p : Pkt) (k : Nat) :
    chosenGet (routeStep accUp st p) k = chosenGet st k := by
  simp only [routeStep]
  cases mfind p.dst st.ipToKey with
  | none => rfl
  | some pk =>
    by_cases hacc : snodeAccepts accUp st pk p = true
    · simp [hacc]
    · simp only [hacc, Bool.false_eq_true, if_false]
      cases hch : mfind pk st.chosenExits with
      | some o => rfl
      | none =>
        simp only [chosenGet, mfind_append]
        cases hk : mfind k st.chosenExits with
        | some x => rfl
        | none =>
          by_cases hpk : pk = k
          · subst hpk
            simp [hch]
          · simp [hpk]

theorem routeEvent_routeStep (accUp : SNodeSession → Pkt → Bool)
    (accIn : ExitSession → Pkt → Bool) (st : ExitState) (p q : Pkt) :
    routeEvent accUp accIn (routeStep accUp st p) q =
      routeEvent accUp accIn st q := by
  obtain ⟨hip, hsk, hss, -⟩ := routeStep_fields accUp st p
  simp only [routeEvent, snodeAccepts, hip, hsk, hss, chosenGet_routeStep]

theorem flushGo_spec (accUp : SNodeSession → Pkt → Bool)
    (accIn : ExitSession → Pkt → Bool) :
    ∀ (q : List Pkt) (st : ExitState),
    (flushGo accUp accIn q st).1 = q.map (routeEvent accUp accIn st) ∧
    (flushGo accUp accIn q st).2.inetQueue = st.inetQueue := by
  intro q
  induction q with
  | nil => intro st; exact ⟨rfl, rfl⟩
  | cons p ps ih =>
    intro st
    obtain ⟨ih1, ih2⟩ := ih (routeStep accUp st p)
    obtain ⟨-, -, -, hqq⟩ := routeStep_fields accUp st p
    constructor
    · have hfe : routeEvent accUp accIn (routeStep accUp st p) =
          routeEvent accUp accIn st := by
        funext x
        exact routeEvent_routeStep accUp accIn st p x
      simp only [flushGo, ih1, hfe, List.map_cons]
    · simp only [flushGo, ih2, hqq]

/-- C1: `Flush` drains the whole inbound queue, giving every packet exactly
one disposition and never failing: an unmapped destination is dropped; a
snode-marked key with an outbound session that accepts the packet gets it
upstream; otherwise the packet goes to the chosen exit when one exists and
accepts it, and is dropped (no working endpoint / overloaded) otherwise. -/
theorem flush_dispatch (accUp : SNodeSession → Pkt → Bool)
    (accIn : ExitSession → Pkt → Bool) (st : ExitState) :
    (flushInet accUp accIn st).1 =
      st.inetQueue.map (routeEvent accUp accIn st) ∧
    (flushInet accUp accIn st).2.inetQueue = [] ∧
    (flushInet accUp accIn st).1.length = st.inetQueue.length ∧
    (∀ pkt : Pkt, mfind pkt.dst st.ipToKey = none →
      routeEvent accUp accIn st pkt = .droppedNoSession pkt.dst) ∧
    (∀ (pkt : Pkt) (pk : Nat) (sn : SNodeSession),
      mfind pkt.dst st.ipToKey = some pk → pk ∈ st.snodeKeys →
      mfind pk st.snodeSessions = some sn → accUp sn pkt = true →
      routeEvent accUp accIn st pkt = .toSnode pk) ∧
    (∀ (pkt : Pkt) (pk : Nat), mfind pkt.dst st.ipToKey = some pk →
      snodeAccepts accUp st pk pkt = false →
      ((chosenGet st pk = none →
        routeEvent accUp accIn st pkt = .droppedNoEndpoint pk) ∧
       (∀ ep, chosenGet st pk = some ep → accIn ep pkt = true →
        routeEvent accUp accIn st pkt = .toExit pk) ∧
       (∀ ep, chosenGet st pk = some ep → accIn ep pkt = false →
        routeEvent accUp accIn st pkt = .droppedOverloaded pk))) := by
  have hre : routeEvent accUp accIn { st with inetQueue := [] } =
      routeEvent accUp accIn st := by
    funext x
    rfl
  obtain ⟨h1, h2⟩ := flushGo_spec accUp accIn st.inetQueue
    { st with inetQueue := [] }
  refine ⟨?_, ?_, ?_, ?_, ?_, ?_⟩
  · rw [flushInet, h1, hre]
  · rw [flushInet, h2]
  · rw [flushInet, h1, hre, List.length_map]
  · intro pkt hnone
    simp [routeEvent, hnone]
  · intro pkt pk sn hpk hmem hsn hacc
    have hsa : snodeAccepts accUp st pk pkt = true := by
      simp [snodeAccepts, hmem, hsn, hacc]
    simp [routeEvent, hpk, hsa]
  · intro pkt pk hpk hsa
    refine ⟨?_, ?_, ?_⟩
    · intro hch
      simp [routeEvent, hpk, hsa, hch]
    · intro ep hch hacc
      simp [routeEvent, hpk, hsa, hch, hacc]
    · intro ep hch hacc
      simp [routeEvent, hpk, hsa, hch, hacc]

/-- Concrete run of `flush_dispatch` over four packets hitting all four
dispositions: unmapped drop, snode upstream, chosen-exit delivery and
no-endpoint drop. -/
def flushW : ExitState :=
  { initState 5 30 true with
    ipToKey := [(6, 1), (7, 2), (8, 3)]
    snodeKeys := [1]
    snodeSessions :=
      [(1, { pk := 1, rewriteIP := 6, createdAt := 0,
             txThisTick := 0, rxThisTick := 0 })]
    chosenExits :=
      [(2, some { pk := 2, pathId := 100, inbound := false, ip := 7,
                  createdAt := 0, lastActive := 0, txThisTick := 0,
                  rxThisTick := 0 })]
    inetQueue := [⟨9, 0⟩, ⟨6, 0⟩, ⟨7, 0⟩, ⟨8, 0⟩] }

theorem flush_dispatch_witness :
    (flushInet (fun _ _ => true) (fun _ _ => true) flushW).1 =
      [.droppedNoSession 9, .toSnode 1, .toExit 2, .droppedNoEndpoint 3] ∧
    (flushInet (fun _ _ => true) (fun _ _ => true) flushW).2.inetQueue =
      [] := by
  obtain ⟨h1, h2, -⟩ :=
    flush_dispatch (fun _ _ => true) (fun _ _ => true) flushW
  refine ⟨?_, h2⟩
  rw [h1]
  decide

theorem mfind_aInsert_isSome {k k2 v : Nat} {l : List (Nat × Nat)}
    (h : (mfind k l).isSome) : (mfind k (aInsert k2 v l)).isSome := by
  by_cases hk : k = k2
  · subst hk
    simp [mfind_aInsert_self]
  · rw [mfind_aInsert_ne _ _ hk]
    exact h

theorem mfind_aInsert_cases {k k2 v t : Nat} {l : List (Nat × Nat)}
    (h : mfind k (aInsert k2 v l) = some t) :
    (k = k2 ∧ t = v) ∨ (k ≠ k2 ∧ mfind k l = some t) := by
  by_cases hk : k = k2
  · subst hk
    rw [mfind_aInsert_self] at h
    injection h with h1
    exact Or.inl ⟨rfl, h1.symm⟩
  · rw [mfind_aInsert_ne _ _ hk] at h
    exact Or.inr ⟨hk, h⟩

theorem mfind_merase_some {V : Type} {k k2 : Nat} {v : V}
    {l : List (Nat × V)} (h : mfind k (merase k2 l) = some v) :
    k ≠ k2 ∧ mfind k l = some v := by
  by_cases hk : k = k2
  · subst hk
    rw [mfind_merase_self] at h
    cases h
  · rw [mfind_merase_ne _ hk] at h
    exact ⟨hk, h⟩

theorem mfind_append_cases {V : Type} {k k2 : Nat} {v t : V}
    {l : List (Nat × V)} (h : mfind k (l ++ [(k2, v)]) = some t) :
    mfind k l = some t ∨ (mfind k l = none ∧ k2 = k ∧ v = t) := by
  rw [mfind_append] at h
  cases hm : mfind k l with
  | some x =>
    rw [hm] at h
    injection h with h1
    exact Or.inl (by rw [h1])
  | none =>
    rw [hm] at h
    by_cases hk : k2 = k
    · rw [if_pos hk] at h
      injection h with h1
      exact Or.inr ⟨rfl, hk, h1⟩
    · rw [if_neg hk] at h
      cases h

theorem mfind_append_isSome {V : Type} {k k2 : Nat} {v : V}
    {l : List (Nat × V)} (h : (mfind k l).isSome) :
    (mfind k (l ++ [(k2, v)])).isSome := by
  rw [mfind_append]
  cases hm : mfind k l with
  | some x => simp
  | none => rw [hm] at h; cases h

theorem mfind_bound_none {l : List (Nat × Nat)} {n : Nat}
    (h : ∀ i p, mfind i l = some p → i ≤ n) : mfind (n + 1) l = none := by
  cases hm : mfind (n + 1) l with
  | none => rfl
  | some p =>
    have := h (n + 1) p hm
    omega

theorem aInsert_ne_nil (k v : Nat) (l : List (Nat × Nat)) :
    aInsert k v l ≠ [] := by
  cases l with
  | nil => simp [aInsert]
  | cons e t =>
    simp only [aInsert]
    by_cases h1 : k < e.1
    · simp [h1]
    · by_cases h2 : e.1 = k
      · simp [h1, h2]
      · simp [h1, h2]

theorem scanFold_mem :
    ∀ (l : List (Nat × Nat)) (a : Nat × Nat),
    l.foldl (fun acc e => if e.2 < acc.2 then e else acc) a = a ∨
    l.foldl (fun acc e => if e.2 < acc.2 then e else acc) a ∈ l := by
  intro l
  induction l with
  | nil => intro a; exact Or.inl rfl
  | cons e t ih =>
    intro a
    by_cases he : e.2 < a.2
    · have hfold : (e :: t).foldl (fun acc e => if e.2 < acc.2 then e else acc) a
          = t.foldl (fun acc e => if e.2 < acc.2 then e else acc) e := by
        simp [List.foldl_cons, he]
      rw [hfold]
      rcases ih e with h | h
      · exact Or.inr (by rw [h]; exact List.mem_cons_self e t)
      · exact Or.inr (List.mem_cons_of_mem e h)
    · have hfold : (e :: t).foldl (fun acc e => if e.2 < acc.2 then e else acc) a
          = t.foldl (fun acc e => if e.2 < acc.2 then e else acc) a := by
        simp [List.foldl_cons, he]
      rw [hfold]
      rcases ih a with h | h
      · exact Or.inl h
      · exact Or.inr (List.mem_cons_of_mem e h)

theorem scanMinIP_mem {l : List (Nat × Nat)} (hne : l ≠ [])
    (hmax : ∀ e ∈ l, e.2 < llarpTimeMax) : scanMinIP l ∈ l := by
  cases l with
  | nil => exact absurd rfl hne
  | cons e t =>
    have he := hmax e (List.mem_cons_self e t)
    have hfold : scanMinIP (e :: t)
        = t.foldl (fun acc e => if e.2 < acc.2 then e else acc) e := by
      simp [scanMinIP, List.foldl_cons, he]
    rw [hfold]
    rcases scanFold_mem t e with h | h
    · rw [h]
      exact List.mem_cons_self e t
    · exact List.mem_cons_of_mem e h

theorem mfind_mem {V : Type} {k : Nat} {v : V} :
    ∀ {l : List (Nat × V)}, mfind k l = some v → (k, v) ∈ l := by
  intro l
  induction l with
  | nil => intro h; cases h
  | cons e t ih =>
    intro h
    by_cases he : e.1 = k
    · simp only [mfind, he, if_pos] at h
      injection h with h1
      subst h1
      subst he
      exact List.mem_cons_self _ _
    · simp only [mfind, he, if_false] at h
      exact List.mem_cons_of_mem e (ih h)

theorem aInsert_mem_cases {k v : Nat} {e : Nat × Nat} :
    ∀ {l : List (Nat × Nat)}, e ∈ aInsert k v l → e = (k, v) ∨ e ∈ l := by
  intro l
  induction l with
  | nil => intro h; simpa [aInsert] using h
  | cons x t ih =>
    intro h
    simp only [aInsert] at h
    by_cases h1 : k < x.1
    · rw [if_pos h1] at h
      rcases List.mem_cons.mp h with h | h
      · exact Or.inl h
      · exact Or.inr h
    · rw [if_neg h1] at h
      by_cases h2 : x.1 = k
      · rw [if_pos h2] at h
        rcases List.mem_cons.mp h with h | h
        · exact Or.inl h
        · exact Or.inr (List.mem_cons_of_mem x h)
      · rw [if_neg h2] at h
        rcases List.mem_cons.mp h with h | h
        · exact Or.inr (by rw [h]; exact List.mem_cons_self x t)
        · rcases ih h with h | h
          · exact Or.inl h
          · exact Or.inr (List.mem_cons_of_mem x h)

theorem merase_mem {V : Type} {k : Nat} {e : Nat × V} :
    ∀ {l : List (Nat × V)}, e ∈ merase k l → e ∈ l := by
  intro l
  induction l with
  | nil => intro h; cases h
  | cons x t ih =>
    intro h
    simp only [merase] at h
    by_cases hx : x.1 = k
    · rw [if_pos hx] at h
      exact List.mem_cons_of_mem x (ih h)
    · rw [if_neg hx] at h
      rcases List.mem_cons.mp h with h | h
      · exact List.mem_cons.mpr (Or.inl h)
      · exact List.mem_cons.mpr (Or.inr (ih h))

/-- The two identity-map directions are exact inverses on their common
domain. -/
def imInverse (K I : List (Nat × Nat)) : Prop :=
  ∀ pk ip, mfind pk K = some ip ↔ mfind ip I = some pk

theorem imInverse_insert {K I : List (Nat × Nat)} (h : imInverse K I)
    {pk ip : Nat} (hK : mfind pk K = none) (hI : mfind ip I = none) :
    imInverse (K ++ [(pk, ip)]) (I ++ [(ip, pk)]) := by
  intro p i
  constructor
  · intro hp
    rcases mfind_append_cases hp with h1 | ⟨h1, h2, h3⟩
    · have hi := (h p i).mp h1
      rw [mfind_append, hi]
    · subst h2
      subst h3
      rw [mfind_append, hI]
      simp
  · intro hi
    rcases mfind_append_cases hi with h1 | ⟨h1, h2, h3⟩
    · have hp := (h p i).mpr h1
      rw [mfind_append, hp]
    · subst h2
      subst h3
      rw [mfind_append, hK]
      simp

theorem imInverse_erase {K I : List (Nat × Nat)} (h : imInverse K I)
    {pk ip : Nat} (hpk : mfind pk K = some ip) :
    imInverse (merase pk K) (merase ip I) := by
  intro p i
  constructor
  · intro hp
    obtain ⟨hne, hold⟩ := mfind_merase_some hp
    have hi := (h p i).mp hold
    by_cases hie : i = ip
    · subst hie
      have h2 := (h pk i).mp hpk
      rw [hi] at h2
      injection h2 with h3
      exact absurd h3 hne
    · rw [mfind_merase_ne _ hie]
      exact hi
  · intro hi
    obtain ⟨hne, hold⟩ := mfind_merase_some hi
    have hp := (h p i).mpr hold
    by_cases hpe : p = pk
    · subst hpe
      rw [hp] at hpk
      injection hpk with h3
      exact absurd h3 hne
    · rw [mfind_merase_ne _ hpe]
      exact hp

/-- Structural invariant of the address pool: every mapped address has an
activity timestamp, all recorded addresses are within the handed-out range
(at most `nextAddr`), all timestamps are below the 64-bit maximum, and the
containers are empty together. -/
def Inv9 (st : ExitState) : Prop :=
  (∀ pk ip, mfind pk st.keyToIP = some ip →
    (mfind ip st.ipActivity).isSome = true ∧ ip ≤ st.nextAddr) ∧
  (∀ e ∈ st.ipToKey, e.1 ≤ st.nextAddr) ∧
  (∀ e ∈ st.ipActivity, e.1 ≤ st.nextAddr ∧ e.2 < llarpTimeMax) ∧
  (st.ipActivity = [] → st.ipToKey = [] ∧ st.keyToIP = [])

/-- Alignment of the identity map: the two directions are exact inverses
and every address carrying an activity timestamp is currently mapped. -/
def imAligned (st : ExitState) : Prop :=
  imInverse st.keyToIP st.ipToKey ∧
  (∀ ip, (mfind ip st.ipActivity).isSome = true →
    (mfind ip st.ipToKey).isSome = true)

theorem hasLocal_none {st : ExitState} {pk : Nat}
    (h : ¬hasLocalMappedAddrFor st pk = true) :
    mfind pk st.keyToIP = none := by
  cases hm : mfind pk st.keyToIP with
  | none => rfl
  | some ip => exact absurd (by simp [hasLocalMappedAddrFor, hm]) h

theorem inv9_mark (st' : ExitState) (K0 I0 act0 : List (Nat × Nat))
    (ip now n1 : Nat)
    (hK : st'.keyToIP = K0) (hI : st'.ipToKey = I0)
    (hact : st'.ipActivity = aInsert ip now act0) (hn : st'.nextAddr = n1)
    (hA : ∀ p i, mfind p K0 = some i →
      (mfind i act0).isSome = true ∧ i ≤ n1)
    (hB : ∀ e ∈ I0, e.1 ≤ n1)
    (hC : ∀ e ∈ act0, e.1 ≤ n1 ∧ e.2 < llarpTimeMax)
    (hip : ip ≤ n1) (hnow : now < llarpTimeMax) : Inv9 st' := by
  refine ⟨?_, ?_, ?_, ?_⟩
  · intro p i hp
    rw [hK] at hp
    rw [hact, hn]
    obtain ⟨hs, hle⟩ := hA p i hp
    exact ⟨mfind_aInsert_isSome hs, hle⟩
  · intro e he
    rw [hI] at he
    rw [hn]
    exact hB e he
  · intro e he
    rw [hact] at he
    rw [hn]
    rcases aInsert_mem_cases he with h1 | h1
    · rw [h1]
      exact ⟨hip, hnow⟩
    · exact hC e h1
  · intro hnil
    rw [hact] at hnil
    exact absurd hnil (aInsert_ne_nil _ _ _)

theorem inv9_insert_success (st' : ExitState)
    (K1 I1 act0 : List (Nat × Nat)) (pk f now n1 : Nat)
    (hK : st'.keyToIP = K1 ++ [(pk, f)])
    (hI : st'.ipToKey = I1 ++ [(f, pk)])
    (hact : st'.ipActivity = aInsert f now act0) (hn : st'.nextAddr = n1)
    (hA1 : ∀ p i, mfind p K1 = some i →
      (mfind i act0).isSome = true ∧ i ≤ n1)
    (hB1 : ∀ e ∈ I1, e.1 ≤ n1)
    (hC1 : ∀ e ∈ act0, e.1 ≤ n1 ∧ e.2 < llarpTimeMax)
    (hf : f ≤ n1) (hnow : now < llarpTimeMax) : Inv9 st' := by
  refine ⟨?_, ?_, ?_, ?_⟩
  · intro p i hp
    rw [hK] at hp
    rw [hact, hn]
    rcases mfind_append_cases hp with h1 | ⟨h1, h2, h3⟩
    · obtain ⟨hs, hle⟩ := hA1 p i h1
      exact ⟨mfind_aInsert_isSome hs, hle⟩
    · subst h3
      rw [mfind_aInsert_self]
      exact ⟨rfl, hf⟩
  · intro e he
    rw [hI] at he
    rw [hn]
    rcases List.mem_append.mp he with h1 | h1
    · exact hB1 e h1
    · have he2 : e = (f, pk) := by simpa using h1
      rw [he2]
      exact hf
  · intro e he
    rw [hact] at he
    rw [hn]
    rcases aInsert_mem_cases he with h1 | h1
    · rw [h1]
      exact ⟨hf, hnow⟩
    · exact hC1 e h1
  · intro hnil
    rw [hact] at hnil
    exact absurd hnil (aInsert_ne_nil _ _ _)

theorem inv9_early (st' : ExitState) (K1 I1 act0 : List (Nat × Nat))
    (pk f n1 : Nat)
    (hK : st'.keyToIP = K1 ++ [(pk, f)]) (hI : st'.ipToKey = I1)
    (hact : st'.ipActivity = act0) (hn : st'.nextAddr = n1)
    (hA1 : ∀ p i, mfind p K1 = some i →
      (mfind i act0).isSome = true ∧ i ≤ n1)
    (hB1 : ∀ e ∈ I1, e.1 ≤ n1)
    (hC1 : ∀ e ∈ act0, e.1 ≤ n1 ∧ e.2 < llarpTimeMax)
    (hf : f ≤ n1) (hfs : (mfind f act0).isSome = true)
    (hnonnil : act0 ≠ []) : Inv9 st' := by
  refine ⟨?_, ?_, ?_, ?_⟩
  · intro p i hp
    rw [hK] at hp
    rw [hact, hn]
    rcases mfind_append_cases hp with h1 | ⟨h1, h2, h3⟩
    · exact hA1 p i h1
    · subst h3
      exact ⟨hfs, hf⟩
  · intro e he
    rw [hI] at he
    rw [hn]
    exact hB1 e he
  · intro e he
    rw [hact] at he
    rw [hn]
    exact hC1 e he
  · intro hnil
    rw [hact] at hnil
    exact absurd hnil hnonnil

theorem getIPForIdent_fresh (st : ExitState) (now pk : Nat)
    (hm0 : ¬hasLocalMappedAddrFor st pk = true)
    (hlt : st.nextAddr < st.highestAddr)
    (hInone : mfind (st.nextAddr + 1) st.ipToKey = none) :
    getIPForIdent st now pk =
      (st.nextAddr + 1,
        { st with
          nextAddr := st.nextAddr + 1
          keyToIP := st.keyToIP ++ [(pk, st.nextAddr + 1)]
          ipToKey := st.ipToKey ++ [(st.nextAddr + 1, pk)]
          ipActivity := aInsert (st.nextAddr + 1) now st.ipActivity }) := by
  have hm := hasLocal_none hm0
  simp [getIPForIdent, hm0, allocateNewAddress, hlt, memplace, hm, hInone,
    markIPActive]

theorem getIPForIdent_lru_hit_succ (st : ExitState) (now pk pk_old : Nat)
    (hm0 : ¬hasLocalMappedAddrFor st pk = true)
    (hlt : ¬st.nextAddr < st.highestAddr)
    (hfk : mfind (scanMinIP st.ipActivity).1 st.ipToKey = some pk_old)
    (hsucc : mfind (scanMinIP st.ipActivity).1
      (merase ((mfind pk_old st.keyToIP).getD 0) st.ipToKey) = none) :
    getIPForIdent st now pk =
      ((scanMinIP st.ipActivity).1,
        { st with
          keyToIP := merase pk_old st.keyToIP ++
            [(pk, (scanMinIP st.ipActivity).1)]
          ipToKey := merase ((mfind pk_old st.keyToIP).getD 0) st.ipToKey ++
            [((scanMinIP st.ipActivity).1, pk)]
          ipActivity := aInsert (scanMinIP st.ipActivity).1 now st.ipActivity
          activeExits := st.activeExits.filter (fun s => s.pk ≠ pk_old) }) := by
  have hm := hasLocal_none hm0
  have hk1 : mfind pk (merase pk_old st.keyToIP) = none := mfind_merase_none hm
  simp [getIPForIdent, hm0, allocateNewAddress, hlt, hfk, kickIdentOffExit,
    memplace, hk1, hsucc, markIPActive]

theorem getIPForIdent_lru_hit_early (st : ExitState) (now pk pk_old x : Nat)
    (hm0 : ¬hasLocalMappedAddrFor st pk = true)
    (hlt : ¬st.nextAddr < st.highestAddr)
    (hfk : mfind (scanMinIP st.ipActivity).1 st.ipToKey = some pk_old)
    (hfail : mfind (scanMinIP st.ipActivity).1
      (merase ((mfind pk_old st.keyToIP).getD 0) st.ipToKey) = some x) :
    getIPForIdent st now pk =
      ((scanMinIP st.ipActivity).1,
        { st with
          keyToIP := merase pk_old st.keyToIP ++
            [(pk, (scanMinIP st.ipActivity).1)]
          ipToKey := merase ((mfind pk_old st.keyToIP).getD 0) st.ipToKey
          activeExits := st.activeExits.filter (fun s => s.pk ≠ pk_old) }) := by
  have hm := hasLocal_none hm0
  have hk1 : mfind pk (merase pk_old st.keyToIP) = none := mfind_merase_none hm
  simp [getIPForIdent, hm0, allocateNewAddress, hlt, hfk, kickIdentOffExit,
    memplace, hk1, hfail, markIPActive]

theorem getIPForIdent_lru_miss_succ (st : ExitState) (now pk : Nat)
    (hm0 : ¬hasLocalMappedAddrFor st pk = true)
    (hlt : ¬st.nextAddr < st.highestAddr)
    (hfk : mfind (scanMinIP st.ipActivity).1 st.ipToKey = none)
    (hsucc : mfind (scanMinIP st.ipActivity).1
      (merase ((mfind 0 st.keyToIP).getD 0)
        (st.ipToKey ++ [((scanMinIP st.ipActivity).1, 0)])) = none) :
    getIPForIdent st now pk =
      ((scanMinIP st.ipActivity).1,
        { st with
          keyToIP := merase 0 st.keyToIP ++
            [(pk, (scanMinIP st.ipActivity).1)]
          ipToKey := merase ((mfind 0 st.keyToIP).getD 0)
            (st.ipToKey ++ [((scanMinIP st.ipActivity).1, 0)]) ++
            [((scanMinIP st.ipActivity).1, pk)]
          ipActivity := aInsert (scanMinIP st.ipActivity).1 now st.ipActivity
          activeExits := st.activeExits.filter (fun s => s.pk ≠ 0) }) := by
  have hm := hasLocal_none hm0
  have hk1 : mfind pk (merase 0 st.keyToIP) = none := mfind_merase_none hm
  simp [getIPForIdent, hm0, allocateNewAddress, hlt, hfk, kickIdentOffExit,
    memplace, hk1, hsucc, markIPActive]

theorem getIPForIdent_lru_miss_early (st : ExitState) (now pk x : Nat)
    (hm0 : ¬hasLocalMappedAddrFor st pk = true)
    (hlt : ¬st.nextAddr < st.highestAddr)
    (hfk : mfind (scanMinIP st.ipActivity).1 st.ipToKey = none)
    (hfail : mfind (scanMinIP st.ipActivity).1
      (merase ((mfind 0 st.keyToIP).getD 0)
        (st.ipToKey ++ [((scanMinIP st.ipActivity).1, 0)])) = some x) :
    getIPForIdent st now pk =
      ((scanMinIP st.ipActivity).1,
        { st with
          keyToIP := merase 0 st.keyToIP ++
            [(pk, (scanMinIP st.ipActivity).1)]
          ipToKey := merase ((mfind 0 st.keyToIP).getD 0)
            (st.ipToKey ++ [((scanMinIP st.ipActivity).1, 0)])
          activeExits := st.activeExits.filter (fun s => s.pk ≠ 0) }) := by
  have hm := hasLocal_none hm0
  have hk1 : mfind pk (merase 0 st.keyToIP) = none := mfind_merase_none hm
  simp [getIPForIdent, hm0, allocateNewAddress, hlt, hfk, kickIdentOffExit,
    memplace, hk1, hfail, markIPActive]

theorem getIPForIdent_inv9 (st : ExitState) (now pk : Nat)
    (hnow : now < llarpTimeMax) (h : Inv9 st) :
    Inv9 (getIPForIdent st now pk).2 := by
  obtain ⟨hA, hB, hC, hD⟩ := h
  by_cases hm0 : hasLocalMappedAddrFor st pk = true
  · cases hm : mfind pk st.keyToIP with
    | none => simp [hasLocalMappedAddrFor, hm] at hm0
    | some ip =>
      have hst : getIPForIdent st now pk = (ip, markIPActive st now ip) :=
        getIPForIdent_mapped hm
      rw [hst]
      obtain ⟨-, hle⟩ := hA pk ip hm
      exact inv9_mark _ st.keyToIP st.ipToKey st.ipActivity ip now
        st.nextAddr rfl rfl rfl rfl hA hB hC hle hnow
  · by_cases hlt : st.nextAddr < st.highestAddr
    · have hInone : mfind (st.nextAddr + 1) st.ipToKey = none := by
        apply mfind_bound_none
        intro i p hp
        exact hB (i, p) (mfind_mem hp)
      have hst := getIPForIdent_fresh st now pk hm0 hlt hInone
      rw [hst]
      refine inv9_insert_success _ st.keyToIP st.ipToKey st.ipActivity pk
        (st.nextAddr + 1) now (st.nextAddr + 1) rfl rfl rfl rfl ?_ ?_ ?_
        (Nat.le_refl _) hnow
      · intro p i hp
        obtain ⟨hs, hle⟩ := hA p i hp
        exact ⟨hs, Nat.le_succ_of_le hle⟩
      · intro e he
        exact Nat.le_succ_of_le (hB e he)
      · intro e he
        exact ⟨Nat.le_succ_of_le (hC e he).1, (hC e he).2⟩
    · cases hfk : mfind (scanMinIP st.ipActivity).1 st.ipToKey with
      | some pk_old =>
        have hne : st.ipActivity ≠ [] := by
          intro hnil
          have hI := (hD hnil).1
          rw [hI] at hfk
          exact absurd hfk (by simp [mfind])
        have hmax' : ∀ e ∈ st.ipActivity, e.2 < llarpTimeMax :=
          fun e he => (hC e he).2
        have hmem := scanMinIP_mem hne hmax'
        have hfb : (scanMinIP st.ipActivity).1 ≤ st.nextAddr :=
          (hC _ hmem).1
        have hfs : (mfind (scanMinIP st.ipActivity).1
            st.ipActivity).isSome = true := by
          have hp : ((scanMinIP st.ipActivity).1,
              (scanMinIP st.ipActivity).2) ∈ st.ipActivity := by
            simpa using hmem
          exact mfind_isSome_of_mem hp
        cases hsucc : mfind (scanMinIP st.ipActivity).1
            (merase ((mfind pk_old st.keyToIP).getD 0) st.ipToKey) with
        | none =>
          have hst := getIPForIdent_lru_hit_succ st now pk pk_old hm0 hlt
            hfk hsucc
          rw [hst]
          refine inv9_insert_success _ (merase pk_old st.keyToIP)
            (merase ((mfind pk_old st.keyToIP).getD 0) st.ipToKey)
            st.ipActivity pk (scanMinIP st.ipActivity).1 now st.nextAddr
            rfl rfl rfl rfl ?_ ?_ hC hfb hnow
          · intro p i hp
            exact hA p i (mfind_merase_some hp).2
          · intro e he
            exact hB e (merase_mem he)
        | some x =>
          have hst := getIPForIdent_lru_hit_early st now pk pk_old x hm0 hlt
            hfk hsucc
          rw [hst]
          refine inv9_early _ (merase pk_old st.keyToIP)
            (merase ((mfind pk_old st.keyToIP).getD 0) st.ipToKey)
            st.ipActivity pk (scanMinIP st.ipActivity).1 st.nextAddr
            rfl rfl rfl rfl ?_ ?_ hC hfb hfs hne
          · intro p i hp
            exact hA p i (mfind_merase_some hp).2
          · intro e he
            exact hB e (merase_mem he)
      | none =>
        by_cases hact : st.ipActivity = []
        · obtain ⟨hI0, hK0⟩ := hD hact
          have hfound : (scanMinIP st.ipActivity).1 = 0 := by
            rw [hact]
            rfl
          have hsucc : mfind (scanMinIP st.ipActivity).1
              (merase ((mfind 0 st.keyToIP).getD 0)
                (st.ipToKey ++ [((scanMinIP st.ipActivity).1, 0)])) =
              none := by
            rw [hfound, hK0, hI0]
            simp [mfind, merase]
          have hst := getIPForIdent_lru_miss_succ st now pk hm0 hlt hfk hsucc
          rw [hst]
          refine inv9_insert_success _ (merase 0 st.keyToIP)
            (merase ((mfind 0 st.keyToIP).getD 0)
              (st.ipToKey ++ [((scanMinIP st.ipActivity).1, 0)]))
            st.ipActivity pk (scanMinIP st.ipActivity).1 now st.nextAddr
            rfl rfl rfl rfl ?_ ?_ hC ?_ hnow
          · intro p i hp
            exact hA p i (mfind_merase_some hp).2
          · intro e he
            rcases List.mem_append.mp (merase_mem he) with h1 | h1
            · exact hB e h1
            · have he2 : e = ((scanMinIP st.ipActivity).1, 0) := by
                simpa using h1
              rw [he2, hfound]
              exact Nat.zero_le _
          · rw [hfound]
            exact Nat.zero_le _
        · have hmax' : ∀ e ∈ st.ipActivity, e.2 < llarpTimeMax :=
            fun e he => (hC e he).2
          have hmem := scanMinIP_mem hact hmax'
          have hfb : (scanMinIP st.ipActivity).1 ≤ st.nextAddr :=
            (hC _ hmem).1
          have hfs : (mfind (scanMinIP st.ipActivity).1
              st.ipActivity).isSome = true := by
            have hp : ((scanMinIP st.ipActivity).1,
                (scanMinIP st.ipActivity).2) ∈ st.ipActivity := by
              simpa using hmem
            exact mfind_isSome_of_mem hp
          cases hsucc : mfind (scanMinIP st.ipActivity).1
              (merase ((mfind 0 st.keyToIP).getD 0)
                (st.ipToKey ++ [((scanMinIP st.ipActivity).1, 0)])) with
          | none =>
            have hst := getIPForIdent_lru_miss_succ st now pk hm0 hlt hfk
              hsucc
            rw [hst]
            refine inv9_insert_success _ (merase 0 st.keyToIP)
              (merase ((mfind 0 st.keyToIP).getD 0)
                (st.ipToKey ++ [((scanMinIP st.ipActivity).1, 0)]))
              st.ipActivity pk (scanMinIP st.ipActivity).1 now st.nextAddr
              rfl rfl rfl rfl ?_ ?_ hC hfb hnow
            · intro p i hp
              exact hA p i (mfind_merase_some hp).2
            · intro e he
              rcases List.mem_append.mp (merase_mem he) with h1 | h1
              · exact hB e h1
              · have he2 : e = ((scanMinIP st.ipActivity).1, 0) := by
                  simpa using h1
                rw [he2]
                exact hfb
          | some x =>
            have hst := getIPForIdent_lru_miss_early st now pk x hm0 hlt hfk
              hsucc
            rw [hst]
            refine inv9_early _ (merase 0 st.keyToIP)
              (merase ((mfind 0 st.keyToIP).getD 0)
                (st.ipToKey ++ [((scanMinIP st.ipActivity).1, 0)]))
              st.ipActivity pk (scanMinIP st.ipActivity).1 st.nextAddr
              rfl rfl rfl rfl ?_ ?_ hC hfb hfs hact
            · intro p i hp
              exact hA p i (mfind_merase_some hp).2
            · intro e he
              rcases List.mem_append.mp (merase_mem he) with h1 | h1
              · exact hB e h1
              · have he2 : e = ((scanMinIP st.ipActivity).1, 0) := by
                  simpa using h1
                rw [he2]
                exact hfb

theorem inv9_congr {st st' : ExitState}
    (hK : st'.keyToIP = st.keyToIP) (hI : st'.ipToKey = st.ipToKey)
    (hact : st'.ipActivity = st.ipActivity)
    (hn : st'.nextAddr = st.nextAddr) (h : Inv9 st) : Inv9 st' := by
  obtain ⟨hA, hB, hC, hD⟩ := h
  refine ⟨?_, ?_, ?_, ?_⟩
  · intro p i hp
    rw [hK] at hp
    rw [hact, hn]
    exact hA p i hp
  · intro e he
    rw [hI] at he
    rw [hn]
    exact hB e he
  · intro e he
    rw [hact] at he
    rw [hn]
    exact hC e he
  · intro hnil
    rw [hact] at hnil
    rw [hK, hI]
    exact ⟨(hD hnil).1, (hD hnil).2⟩

theorem kick_inv9 (st : ExitState) (pk : Nat) (h : Inv9 st) :
    Inv9 (kickIdentOffExit st pk) := by
  obtain ⟨hA, hB, hC, hD⟩ := h
  refine ⟨?_, ?_, ?_, ?_⟩
  · intro p i hp
    exact hA p i (mfind_merase_some hp).2
  · intro e he
    exact hB e (merase_mem he)
  · intro e he
    exact hC e he
  · intro hnil
    obtain ⟨hI0, hK0⟩ := hD hnil
    constructor
    · show merase _ st.ipToKey = []
      rw [hI0]
      rfl
    · show merase pk st.keyToIP = []
      rw [hK0]
      rfl

theorem allocateNewExit_fields (st : ExitState) (now pk path : Nat)
    (wI pR : Bool) (hcond : ¬(wI = true ∧ st.permitExit = false)) :
    (allocateNewExit st now pk path wI pR).2.keyToIP =
      (getIPForIdent st now pk).2.keyToIP ∧
    (allocateNewExit st now pk path wI pR).2.ipToKey =
      (getIPForIdent st now pk).2.ipToKey ∧
    (allocateNewExit st now pk path wI pR).2.ipActivity =
      (getIPForIdent st now pk).2.ipActivity ∧
    (allocateNewExit st now pk path wI pR).2.nextAddr =
      (getIPForIdent st now pk).2.nextAddr := by
  by_cases hpr : pR = true ∧ pk ∉ (getIPForIdent st now pk).2.snodeKeys <;>
    simp [allocateNewExit, hcond, hpr]

theorem obtainServiceNodeIP_fields (st : ExitState) (now r : Nat) :
    (obtainServiceNodeIP st now r).2.keyToIP =
      (getIPForIdent st now r).2.keyToIP ∧
    (obtainServiceNodeIP st now r).2.ipToKey =
      (getIPForIdent st now r).2.ipToKey ∧
    (obtainServiceNodeIP st now r).2.ipActivity =
      (getIPForIdent st now r).2.ipActivity ∧
    (obtainServiceNodeIP st now r).2.nextAddr =
      (getIPForIdent st now r).2.nextAddr := by
  simp only [obtainServiceNodeIP]
  by_cases hmem : r ∈ (getIPForIdent st now r).2.snodeKeys
  · simp [hmem]
  · cases hs : mfind r (getIPForIdent st now r).2.snodeSessions <;>
      simp [hmem, hs]

/-- The router clock value an operation carries. -/
def opNow : Op → Nat
  | .getIp now _ => now
  | .allocExit now _ _ _ _ => now
  | .obtainSnode now _ => now
  | .kick _ => 0

theorem applyOp_inv9 (st : ExitState) (o : Op)
    (hnow : opNow o < llarpTimeMax) (h : Inv9 st) : Inv9 (applyOp st o) := by
  cases o with
  | getIp now pk => exact getIPForIdent_inv9 st now pk hnow h
  | allocExit now pk path wI pR =>
    show Inv9 (allocateNewExit st now pk path wI pR).2
    by_cases hcond : wI = true ∧ st.permitExit = false
    · have : allocateNewExit st now pk path wI pR = (false, st) := by
        simp [allocateNewExit, hcond.1, hcond.2]
      rw [this]
      exact h
    · obtain ⟨h1, h2, h3, h4⟩ := allocateNewExit_fields st now pk path wI pR
        hcond
      exact inv9_congr h1 h2 h3 h4 (getIPForIdent_inv9 st now pk hnow h)
  | obtainSnode now pk =>
    obtain ⟨h1, h2, h3, h4⟩ := obtainServiceNodeIP_fields st now pk
    exact inv9_congr h1 h2 h3 h4 (getIPForIdent_inv9 st now pk hnow h)
  | kick pk => exact kick_inv9 st pk h

theorem runOps_inv9 :
    ∀ (ops : List Op) (st : ExitState), Inv9 st →
    (∀ o ∈ ops, opNow o < llarpTimeMax) → Inv9 (runOps st ops) := by
  intro ops
  induction ops with
  | nil => intro st h _; exact h
  | cons o t ih =>
    intro st h hn
    exact ih (applyOp st o) (applyOp_inv9 st o (hn o (List.mem_cons_self o t)) h)
      (fun x hx => hn x (List.mem_cons_of_mem o hx))

theorem inv9_init (host mask : Nat) (permit : Bool) :
    Inv9 (initState host mask permit) := by
  refine ⟨?_, ?_, ?_, ?_⟩
  · intro p i hp
    cases hp
  · intro e he
    cases he
  · intro e he
    cases he
  · intro _
    exact ⟨rfl, rfl⟩

/-- Counterexample to C9: `KickIdentOffExit` never erases `m_IPActivity`,
so after mapping identity 1 (address 6, timestamp 10) and kicking it, the
activity table still holds address 6 while `keyToIp` is empty — the domain
of `ipActivity` is strictly larger than the range of `keyToIp`. -/
theorem ipActivity_stale_after_kick :
    mfind 6 (runOps (initState 5 30 true)
      [.getIp 10 1, .kick 1]).ipActivity = some 10 ∧
    (runOps (initState 5 30 true) [.getIp 10 1, .kick 1]).keyToIP = [] := by
  exact ⟨by decide, by decide⟩

/-- C9 amended: along every operation sequence (clock below the 64-bit
maximum), every currently mapped address holds an activity timestamp — the
range of `keyToIp` is contained in the domain of `ipActivity` (the converse
fails: kicked addresses keep stale timestamps) — and `MarkIPActive` sets a
timestamp to the current clock, never decreasing it while the clock is
monotone. -/
theorem ipActivity_covers_mapped_and_monotone :
    (∀ (host mask : Nat) (permit : Bool) (ops : List Op),
      (∀ o ∈ ops, opNow o < llarpTimeMax) →
      ∀ pk ip,
        mfind pk (runOps (initState host mask permit) ops).keyToIP =
          some ip →
        (mfind ip
          (runOps (initState host mask permit) ops).ipActivity).isSome =
          true) ∧
    (∀ (st : ExitState) (now ip t : Nat),
      mfind ip st.ipActivity = some t → t ≤ now →
      mfind ip (markIPActive st now ip).ipActivity = some now ∧ t ≤ now) := by
  constructor
  · intro host mask permit ops hn pk ip hp
    have hinv := runOps_inv9 ops (initState host mask permit)
      (inv9_init host mask permit) hn
    exact (hinv.1 pk ip hp).1
  · intro st now ip t hfind hle
    constructor
    · show mfind ip (aInsert ip now st.ipActivity) = some now
      exact mfind_aInsert_self ip now st.ipActivity
    · exact hle

/-- Concrete run of `ipActivity_covers_mapped_and_monotone`: after two
allocations the mapped address 6 carries a timestamp, and re-marking it at a
later clock keeps the timestamp non-decreasing. -/
theorem ipActivity_covers_witness :
    (mfind 6 (runOps (initState 5 30 true)
      [.getIp 10 1, .getIp 20 2]).ipActivity).isSome = true ∧
    mfind 6 (markIPActive (runOps (initState 5 30 true)
      [.getIp 10 1, .getIp 20 2]) 30 6).ipActivity = some 30 := by
  constructor
  · exact (ipActivity_covers_mapped_and_monotone.1 5 30 true
      [.getIp 10 1, .getIp 20 2] (by decide) 1 6 (by decide))
  · exact (ipActivity_covers_mapped_and_monotone.2
      (runOps (initState 5 30 true) [.getIp 10 1, .getIp 20 2]) 30 6 10
      (by decide) (by decide)).1

theorem mfind_aInsert_isSome_cases {k k2 v : Nat} {l : List (Nat × Nat)}
    (h : (mfind k (aInsert k2 v l)).isSome = true) :
    k = k2 ∨ (mfind k l).isSome = true := by
  by_cases hk : k = k2
  · exact Or.inl hk
  · rw [mfind_aInsert_ne _ _ hk] at h
    exact Or.inr h

theorem getIPForIdent_aligned (st : ExitState) (now pk : Nat)
    (h9 : Inv9 st) (hal : imAligned st) :
    imAligned (getIPForIdent st now pk).2 := by
  obtain ⟨hA, hB, hC, hD⟩ := h9
  obtain ⟨hE, hG⟩ := hal
  by_cases hm0 : hasLocalMappedAddrFor st pk = true
  · cases hm : mfind pk st.keyToIP with
    | none => simp [hasLocalMappedAddrFor, hm] at hm0
    | some ip =>
      have hst : getIPForIdent st now pk = (ip, markIPActive st now ip) :=
        getIPForIdent_mapped hm
      rw [hst]
      constructor
      · exact hE
      · intro i hi
        rcases mfind_aInsert_isSome_cases hi with h1 | h1
        · subst h1
          have hsome := (hE pk i).mp hm
          show (mfind i st.ipToKey).isSome = true
          rw [hsome]
          rfl
        · exact hG i h1
  · have hm := hasLocal_none hm0
    by_cases hlt : st.nextAddr < st.highestAddr
    · have hInone : mfind (st.nextAddr + 1) st.ipToKey = none := by
        apply mfind_bound_none
        intro i p hp
        exact hB (i, p) (mfind_mem hp)
      have hst := getIPForIdent_fresh st now pk hm0 hlt hInone
      rw [hst]
      constructor
      · exact imInverse_insert hE hm hInone
      · intro i hi
        rcases mfind_aInsert_isSome_cases hi with h1 | h1
        · subst h1
          rw [mfind_append, hInone]
          simp
        · exact mfind_append_isSome (hG i h1)
    · by_cases hact : st.ipActivity = []
      · obtain ⟨hI0, hK0⟩ := hD hact
        have hfound : (scanMinIP st.ipActivity).1 = 0 := by
          rw [hact]
          rfl
        have hfk : mfind (scanMinIP st.ipActivity).1 st.ipToKey = none := by
          rw [hI0]
          rfl
        have hsucc : mfind (scanMinIP st.ipActivity).1
            (merase ((mfind 0 st.keyToIP).getD 0)
              (st.ipToKey ++ [((scanMinIP st.ipActivity).1, 0)])) =
            none := by
          rw [hfound, hK0, hI0]
          simp [mfind, merase]
        have hst := getIPForIdent_lru_miss_succ st now pk hm0 hlt hfk hsucc
        rw [hst]
        have hKe : merase 0 st.keyToIP = [] := by rw [hK0]; rfl
        have hIe : merase ((mfind 0 st.keyToIP).getD 0)
            (st.ipToKey ++ [((scanMinIP st.ipActivity).1, 0)]) = [] := by
          rw [hfound, hK0, hI0]
          simp [mfind, merase]
        constructor
        · show imInverse (merase 0 st.keyToIP ++ [(pk, _)]) _
          rw [hKe, hIe]
          refine imInverse_insert ?_ rfl rfl
          intro p i
          simp [mfind]
        · intro i hi
          rw [hIe]
          rcases mfind_aInsert_isSome_cases hi with h1 | h1
          · subst h1
            rw [List.nil_append, mfind]
            simp
          · rw [hact] at h1
            cases h1
      · have hmax' : ∀ e ∈ st.ipActivity, e.2 < llarpTimeMax :=
          fun e he => (hC e he).2
        have hmem := scanMinIP_mem hact hmax'
        have hfs : (mfind (scanMinIP st.ipActivity).1
            st.ipActivity).isSome = true := by
          have hp : ((scanMinIP st.ipActivity).1,
              (scanMinIP st.ipActivity).2) ∈ st.ipActivity := by
            simpa using hmem
          exact mfind_isSome_of_mem hp
        have hIs := hG _ hfs
        cases hfk : mfind (scanMinIP st.ipActivity).1 st.ipToKey with
        | none => rw [hfk] at hIs; cases hIs
        | some pk_old =>
          have hpko : mfind pk_old st.keyToIP =
              some (scanMinIP st.ipActivity).1 :=
            (hE pk_old (scanMinIP st.ipActivity).1).mpr hfk
          have hipo : (mfind pk_old st.keyToIP).getD 0 =
              (scanMinIP st.ipActivity).1 := by
            rw [hpko]
            rfl
          have hsucc : mfind (scanMinIP st.ipActivity).1
              (merase ((mfind pk_old st.keyToIP).getD 0) st.ipToKey) =
              none := by
            rw [hipo]
            exact mfind_merase_self _ _
          have hst := getIPForIdent_lru_hit_succ st now pk pk_old hm0 hlt
            hfk hsucc
          rw [hst]
          constructor
          · have herase := imInverse_erase hE hpko
            rw [hipo]
            refine imInverse_insert ?_ (mfind_merase_none hm)
              (mfind_merase_self _ _)
            exact herase
          · intro i hi
            rw [hipo]
            rcases mfind_aInsert_isSome_cases hi with h1 | h1
            · subst h1
              rw [mfind_append, mfind_merase_self]
              simp
            · by_cases hie : i = (scanMinIP st.ipActivity).1
              · subst hie
                rw [mfind_append, mfind_merase_self]
                simp
              · have := hG i h1
                rw [mfind_append, mfind_merase_ne _ hie]
                cases hx : mfind i st.ipToKey with
                | none => rw [hx] at this; cases this
                | some y => simp

theorem aligned_congr {st st' : ExitState}
    (hK : st'.keyToIP = st.keyToIP) (hI : st'.ipToKey = st.ipToKey)
    (hact : st'.ipActivity = st.ipActivity) (h : imAligned st) :
    imAligned st' := by
  obtain ⟨hE, hG⟩ := h
  constructor
  · intro p i
    rw [show st'.keyToIP = st.keyToIP from hK,
      show st'.ipToKey = st.ipToKey from hI]
    exact hE p i
  · intro i hi
    rw [hact] at hi
    rw [hI]
    exact hG i hi

theorem applyOp_aligned (st : ExitState) (o : Op) (hnk : o.isKick = false)
    (h9 : Inv9 st) (hal : imAligned st) : imAligned (applyOp st o) := by
  cases o with
  | getIp now pk => exact getIPForIdent_aligned st now pk h9 hal
  | allocExit now pk path wI pR =>
    show imAligned (allocateNewExit st now pk path wI pR).2
    by_cases hcond : wI = true ∧ st.permitExit = false
    · have heq : allocateNewExit st now pk path wI pR = (false, st) := by
        simp [allocateNewExit, hcond.1, hcond.2]
      rw [heq]
      exact hal
    · obtain ⟨h1, h2, h3, -⟩ := allocateNewExit_fields st now pk path wI pR
        hcond
      exact aligned_congr h1 h2 h3 (getIPForIdent_aligned st now pk h9 hal)
  | obtainSnode now pk =>
    obtain ⟨h1, h2, h3, -⟩ := obtainServiceNodeIP_fields st now pk
    exact aligned_congr h1 h2 h3 (getIPForIdent_aligned st now pk h9 hal)
  | kick pk => simp [Op.isKick] at hnk

theorem runOps_aligned :
    ∀ (ops : List Op) (st : ExitState), Inv9 st → imAligned st →
    (∀ o ∈ ops, o.isKick = false ∧ opNow o < llarpTimeMax) →
    imAligned (runOps st ops) := by
  intro ops
  induction ops with
  | nil => intro st _ hal _; exact hal
  | cons o t ih =>
    intro st h9 hal hn
    obtain ⟨hk, hnow⟩ := hn o (List.mem_cons_self o t)
    exact ih (applyOp st o) (applyOp_inv9 st o hnow h9)
      (applyOp_aligned st o hk h9 hal)
      (fun x hx => hn x (List.mem_cons_of_mem o hx))

theorem aligned_init (host mask : Nat) (permit : Bool) :
    imAligned (initState host mask permit) := by
  constructor
  · intro p i
    simp [initState, mfind]
  · intro i hi
    cases hi

/-- Counterexample to C4: in the two-address pool 5/30, map keys 1 and 2,
kick key 1, then map key 3.  The exhausted allocator selects the stale
address 6 (kicked but still carrying the oldest activity timestamp), the
`m_IPToKey[found]` lookup default-inserts pubkey 0 for it, and the
subsequent `emplace` collision is logged but not repaired: `keyToIp` maps
3 to 6 while `ipToKey` maps 6 to the default key 0 — the maps are no
longer inverses after these four public calls. -/
theorem im_inverse_broken_by_kick :
    mfind 3 (runOps (initState 5 30 true)
      [.getIp 10 1, .getIp 20 2, .kick 1, .getIp 30 3]).keyToIP = some 6 ∧
    mfind 6 (runOps (initState 5 30 true)
      [.getIp 10 1, .getIp 20 2, .kick 1, .getIp 30 3]).ipToKey = some 0 ∧
    ¬(mfind 6 (runOps (initState 5 30 true)
      [.getIp 10 1, .getIp 20 2, .kick 1, .getIp 30 3]).ipToKey =
        some 3) := by
  exact ⟨by decide, by decide, by decide⟩

/-- C4 amended: along every sequence of public identity-map operations that
contains no `kickIdent` (with the router clock below the 64-bit maximum),
`keyToIp` and `ipToKey` are exact inverses on their common domain after
every call — in particular `ipToKey[keyToIp[pk]] = pk` for every mapped
`pk`.  A public kick can break the invariant at the next full-pool
allocation (see the counterexample), because the kicked address keeps its
activity timestamp and its reclamation collides in `ipToKey`. -/
theorem im_inverse_kick_free (host mask : Nat) (permit : Bool)
    (ops : List Op)
    (hops : ∀ o ∈ ops, o.isKick = false ∧ opNow o < llarpTimeMax) :
    ∀ pk ip,
      mfind pk (runOps (initState host mask permit) ops).keyToIP =
        some ip ↔
      mfind ip (runOps (initState host mask permit) ops).ipToKey =
        some pk := by
  exact (runOps_aligned ops (initState host mask permit)
    (inv9_init host mask permit) (aligned_init host mask permit) hops).1

/-- Concrete run of `im_inverse_kick_free`: after two kick-free mappings
the pair (2, 7) is present in both directions. -/
theorem im_inverse_kick_free_witness :
    mfind 2 (runOps (initState 5 30 true)
      [.getIp 10 1, .getIp 20 2]).keyToIP = some 7 ↔
    mfind 7 (runOps (initState 5 30 true)
      [.getIp 10 1, .getIp 20 2]).ipToKey = some 2 :=
  im_inverse_kick_free 5 30 true [.getIp 10 1, .getIp 20 2] (by decide) 2 7

end llarp
